import Mathlib

/-!
Verification of the recurrence-resolution logic of src/events/events.js.

Modelling conventions (shallow embedding):

* A JavaScript Date instant is modelled as an integer count of
  milliseconds since the epoch (type Int).  The host local calendar is
  modelled as UTC (fixed offset, no daylight saving), i.e. the local
  civil calendar is the proleptic Gregorian calendar applied directly
  to the millisecond count.
* JavaScript numbers that reach the resolvers are modelled by JSNum:
  either NaN (covering every non-finite value, since the code only ever
  asks Number.isFinite of them before comparing) or an exact rational.
  All values appearing in the claims (integers, 2.5, 1.5) are exactly
  representable, and the arithmetic the code performs on them (compare,
  subtract, modulo, truncate to integer inside setDate / the Date
  constructor) is exact in these ranges, so rationals are faithful.
* ToIntegerOrInfinity inside MakeDay (used by setDate and by the Date
  constructor) truncates toward zero; jsTrunc models it.
* The Date constructor maps year arguments 0..99 to 1900..1999
  (ECMA-262 MakeFullYear); jsYear models it.  setMonth and setDate do
  not perform this mapping.
* Date-string parsing (parseDate over ev.dateStart) is host defined;
  it is modelled by RawDate, which records only the outcome relevant
  to the dispatcher: absent (falsy), unparseable, or a parsed instant.
* Civil calendar conversions (getFullYear, getMonth, getDate, and the
  day number of a civil date) follow the standard proleptic Gregorian
  algorithms over era / year-of-era / day-of-year decomposition, which
  agree extensionally with ECMA-262 YearFromTime / MonthFromTime /
  DateFromTime and MakeDay.
-/

/-- Milliseconds in one day. -/
def dayMs : Int := 86400000

/-- Milliseconds in one week. -/
def weekMs : Int := 7 * dayMs

/-- A JavaScript number as seen by the resolvers: NaN (all non-finite
values collapse here, the code filters them with Number.isFinite) or a
finite value, represented exactly as a rational. -/
inductive JSNum where
  | nan : JSNum
  | fin (q : ℚ) : JSNum
deriving DecidableEq

/-- Number(x) for a possibly absent field: Number(undefined) is NaN. -/
def jsNumber : Option JSNum → JSNum
  | none => JSNum.nan
  | some n => n

/-- Number(x ?? d) for a possibly absent field with default d. -/
def jsNumberOr : Option JSNum → ℚ → JSNum
  | none, d => JSNum.fin d
  | some n, _ => n

/-- Floor of a rational, computably (the denominator is positive, so
flooring division of numerator by denominator is the floor). -/
def ratFloor (q : ℚ) : Int := q.num / (q.den : Int)

/-- ToIntegerOrInfinity on a finite value: truncation toward zero. -/
def jsTrunc (q : ℚ) : Int :=
  if 0 ≤ q then ratFloor q else -ratFloor (-q)

/-- The JavaScript remainder operator a % b on finite numbers:
a - b * trunc(a / b). -/
def jsMod (a b : ℚ) : ℚ := a - b * (jsTrunc (a / b) : ℚ)

/-- startOfDay from the source: same calendar date, local midnight. -/
def startOfDay (t : Int) : Int := dayMs * (t / dayMs)

/-- The time-of-day component of an instant (milliseconds past local
midnight); an instant is startOfDay plus timeOfDay. -/
def timeOfDay (t : Int) : Int := t % dayMs

/-- Date.prototype.getDay: weekday index 0..6 (0 = Sunday).  The epoch
day (1970-01-01) was a Thursday, weekday 4. -/
def getDay (t : Int) : Int := (t / dayMs + 4) % 7

/-- A civil (proleptic Gregorian) calendar date. -/
structure CivilDate where
  year : Int
  month : Int
  day : Int
deriving DecidableEq

/-- Day number (days since 1970-01-01) of a civil date, via the era /
year-of-era decomposition.  Months are 1..12. -/
def daysFromCivil (y m d : Int) : Int :=
  let y2 := if m ≤ 2 then y - 1 else y
  let era := y2 / 400
  let yoe := y2 - era * 400
  let mp := if m ≤ 2 then m + 9 else m - 3
  let doy := (153 * mp + 2) / 5 + d - 1
  let doe := yoe * 365 + yoe / 4 - yoe / 100 + doy
  era * 146097 + doe - 719468

/-- Civil date of a day number (inverse of daysFromCivil). -/
def civilFromDays (z : Int) : CivilDate :=
  let z2 := z + 719468
  let era := z2 / 146097
  let doe := z2 - era * 146097
  let yoe := (doe - doe / 1460 + doe / 36524 - doe / 146096) / 365
  let doy := doe - (365 * yoe + yoe / 4 - yoe / 100)
  let mp := (5 * doy + 2) / 153
  let d := doy - (153 * mp + 2) / 5 + 1
  let m := if mp < 10 then mp + 3 else mp - 9
  ⟨(if m ≤ 2 then yoe + era * 400 + 1 else yoe + era * 400), m, d⟩

/-- Date.prototype.getFullYear under the fixed-offset model. -/
def getFullYear (t : Int) : Int := (civilFromDays (t / dayMs)).year

/-- Date.prototype.getMonth: month index 0..11. -/
def getMonth (t : Int) : Int := (civilFromDays (t / dayMs)).month - 1

/-- Date.prototype.getDate: day of month 1..31. -/
def getDate (t : Int) : Int := (civilFromDays (t / dayMs)).day

/-- MakeFullYear of the Date constructor: years 0..99 map to
1900..1999. -/
def jsYear (y : Int) : Int := if 0 ≤ y ∧ y ≤ 99 then y + 1900 else y

/-- new Date(year, monthIndex, day) at local midnight: applies the
two-digit-year mapping, normalises the month index, truncates the day
argument, and lets day overflow extend past the month end. -/
def jsMakeDate (y m : Int) (d : ℚ) : Int :=
  let ym := jsYear y + m / 12
  let mn := m % 12
  dayMs * (daysFromCivil ym (mn + 1) 1 + jsTrunc d - 1)

/-- addDays from the source: x.setDate(x.getDate() + days).  setDate
truncates its (possibly fractional) argument toward zero and lets the
calendar normalise overflow, which under the fixed-offset model moves
the instant by whole days. -/
def addDays (t : Int) (days : ℚ) : Int :=
  t + (jsTrunc ((getDate t : ℚ) + days) - getDate t) * dayMs

/-- addWeeks from the source: addDays(d, weeks * 7). -/
def addWeeks (t : Int) (weeks : ℚ) : Int := addDays t (weeks * 7)

/-- addMonths from the source: setMonth(getMonth() + months), then
setDate(0) if the day-of-month rolled over (clamp to the last day of
the target month). -/
def addMonths (t : Int) (months : Int) : Int :=
  let c := civilFromDays (t / dayMs)
  let mi := c.month - 1 + months
  let y2 := c.year + mi / 12
  let m2 := mi % 12 + 1
  let z2 := daysFromCivil y2 m2 1 + c.day - 1
  let d2 := (civilFromDays z2).day
  let z3 := if d2 = c.day then z2 else z2 - d2
  dayMs * z3 + timeOfDay t

/-- setTimeFromAnchor from the source: the calendar date of dateOnly
with the time-of-day of anchor. -/
def setTimeFromAnchor (dateOnly anchor : Int) : Int :=
  startOfDay dateOnly + timeOfDay anchor

/-- weeksBetween from the source: floor of elapsed milliseconds between
the two start-of-days divided by one week. -/
def weeksBetween (a b : Int) : Int :=
  (startOfDay b - startOfDay a) / weekMs

-- sanity checks of the calendar model
/-- Step 2-3 of the weekly resolver (source lines 72-77): first
calendar date on or after the anchor whose weekday matches the target,
stamped with the anchor time-of-day; advanced a week if it still
precedes the anchor. -/
def weeklyBase (anchor : Int) (wd : ℚ) : Int :=
  let anchorDay := startOfDay anchor
  let deltaToWd := jsMod (wd - (getDay anchorDay : ℚ) + 7) 7
  let firstDay := addDays anchorDay deltaToWd
  let base := setTimeFromAnchor firstDay anchor
  if base < anchor then addWeeks base 1 else base

/-- The catch-up while loop of the weekly resolver (source line 85):
while the candidate is not after now, advance it by the interval.  The
validated bound 1 <= intv makes every step at least seven days, which
gives termination. -/
def weeklyLoop (intv : ℚ) (now : Int) (hintv : 1 ≤ intv) (candidate : Int) : Int :=
  if _h : candidate ≤ now then weeklyLoop intv now hintv (addWeeks candidate intv) else candidate
termination_by (now + 1 - candidate).toNat
decreasing_by
  have key : ∀ (n : Int) (p : ℚ), (n : ℚ) ≤ p → n ≤ jsTrunc p := by
    intro n p hnp
    have h1 : n ≤ ⌊p⌋ := Int.le_floor.mpr hnp
    have h2 : n ≤ ⌈p⌉ := by
      have hc := Int.le_ceil p
      exact_mod_cast hnp.trans hc
    unfold jsTrunc
    split
    · show n ≤ ratFloor p
      unfold ratFloor
      rw [← Rat.floor_def]
      exact h1
    · show n ≤ -ratFloor (-p)
      unfold ratFloor
      rw [← Rat.floor_def, Int.floor_neg, neg_neg]
      exact h2
  have h2 : getDate candidate + 1 ≤ jsTrunc ((getDate candidate : ℚ) + intv * 7) := by
    apply key
    push_cast
    linarith
  have hstep : candidate + dayMs ≤ addWeeks candidate intv := by
    show candidate + dayMs ≤ addDays candidate (intv * 7)
    unfold addDays
    have hmul : dayMs ≤ (jsTrunc ((getDate candidate : ℚ) + intv * 7) - getDate candidate) * dayMs := by
      have hpos : (0 : Int) < dayMs := by unfold dayMs; omega
      nlinarith
    omega
  have hpos : (0 : Int) < dayMs := by unfold dayMs; omega
  omega

/-- nextWeeklyOccurrence from the source (lines 63-88).  The anchor is
an Option because the source guards a missing anchorStart; the raw
interval and weekday fields pass through Number coercion with the
interval defaulting to 1, then the finite-range validation. -/
def nextWeeklyOccurrence (anchorStart : Option Int) (interval weekday : Option JSNum)
    (now : Int) : Option Int :=
  match anchorStart with
  | none => none
  | some anchor =>
    match jsNumberOr interval 1, jsNumber weekday with
    | JSNum.fin intv, JSNum.fin wd =>
      if h : 1 ≤ intv ∧ 0 ≤ wd ∧ wd ≤ 6 then
        let base := weeklyBase anchor wd
        if now < base then some base
        else
          let w := weeksBetween base now
          let blocks := ratFloor ((w : ℚ) / intv)
          let candidate := addWeeks base ((blocks : ℚ) * intv)
          some (weeklyLoop intv now h.1 candidate)
      else none
    | _, _ => none

/-- nthWeekdayOfMonth from the source (lines 90-95). -/
def nthWeekdayOfMonth (year monthIndex : Int) (weekday weekOfMonth : ℚ) : Int :=
  let first := jsMakeDate year monthIndex 1
  let offset := jsMod (weekday - (getDay first : ℚ) + 7) 7
  let day := 1 + offset + (weekOfMonth - 1) * 7
  jsMakeDate year monthIndex day

/-- The scan cursor initialisation of the monthly resolver (source
line 105): new Date(now.getFullYear(), now.getMonth(), 1). -/
def monthlyCursorStart (now : Int) : Int :=
  jsMakeDate (getFullYear now) (getMonth now) 1

/-- The bounded for loop of the monthly resolver (source lines
107-119), with the remaining iteration count explicit. -/
def monthlyScan (anchor : Int) (wd wom : ℚ) (now : Int) : Nat → Int → Option Int
  | 0, _ => none
  | Nat.succ fuel, cursor =>
    let occDateOnly := nthWeekdayOfMonth (getFullYear cursor) (getMonth cursor) wd wom
    let occ := setTimeFromAnchor occDateOnly anchor
    if occ < anchor then monthlyScan anchor wd wom now fuel (addMonths cursor 1)
    else if now < occ then some occ
    else monthlyScan anchor wd wom now fuel (addMonths cursor 1)

/-- nextMonthlyOccurrence from the source (lines 97-122). -/
def nextMonthlyOccurrence (anchorStart : Option Int) (weekday weekOfMonth : Option JSNum)
    (now : Int) : Option Int :=
  match anchorStart with
  | none => none
  | some anchor =>
    match jsNumber weekday, jsNumber weekOfMonth with
    | JSNum.fin wd, JSNum.fin wom =>
      if 0 ≤ wd ∧ wd ≤ 6 ∧ 1 ≤ wom ∧ wom ≤ 5 then
        monthlyScan anchor wd wom now 24 (monthlyCursorStart now)
      else none
    | _, _ => none

/-- Outcome of parsing the raw dateStart value of an event record:
absent or falsy, present but not parseable as a date-time, or parsed
to an instant.  The host-defined string parsing itself is outside the
model; only its outcome matters to the dispatcher. -/
inductive RawDate where
  | absent : RawDate
  | unparseable : RawDate
  | parsed (ms : Int) : RawDate
deriving DecidableEq

/-- parseDate from the source (lines 17-21): falsy input gives null,
an invalid date gives null, otherwise the parsed instant. -/
def parseDate : RawDate → Option Int
  | RawDate.absent => none
  | RawDate.unparseable => none
  | RawDate.parsed ms => some ms

/-- The cadence discriminant string for weekly events. -/
def weeklyTag : String := "weekly"

/-- The cadence discriminant string for monthly events. -/
def monthlyTag : String := "monthly"

/-- A structured cadence descriptor object: the type field (none when
absent or not a string, in which case neither strict string equality
test succeeds) and the raw numeric fields. -/
structure JSCadence where
  type : Option String
  interval : Option JSNum
  weekday : Option JSNum
  weekOfMonth : Option JSNum
deriving DecidableEq

/-- The cadence value of an event record: absent (or falsy), present
but not of object type, or a structured descriptor. -/
inductive JSCadenceVal where
  | missing : JSCadenceVal
  | nonObject : JSCadenceVal
  | obj (c : JSCadence) : JSCadenceVal
deriving DecidableEq

/-- The parts of an event record the dispatcher reads. -/
structure JSEvent where
  cadence : JSCadenceVal
  dateStart : RawDate
deriving DecidableEq

/-- nextOccurrenceForEvent from the source (lines 124-140). -/
def nextOccurrenceForEvent (ev : JSEvent) (now : Int) : Option Int :=
  match ev.cadence with
  | JSCadenceVal.missing => none
  | JSCadenceVal.nonObject => none
  | JSCadenceVal.obj c =>
    match parseDate ev.dateStart with
    | none => none
    | some anchor =>
      if c.type = some weeklyTag then
        nextWeeklyOccurrence (some anchor) c.interval c.weekday now
      else if c.type = some monthlyTag then
        nextMonthlyOccurrence (some anchor) c.weekday c.weekOfMonth now
      else none

/-- First instant (local midnight) of a civil month. -/
def monthFirst (y m : Int) : Int := dayMs * daysFromCivil y m 1

/-- The occurrence the monthly scan computes for a given cursor month:
the nth weekday of the cursor month stamped with the anchor
time-of-day (source lines 108-109). -/
def monthOcc (anchor : Int) (wd wom : ℚ) (cursor : Int) : Int :=
  setTimeFromAnchor (nthWeekdayOfMonth (getFullYear cursor) (getMonth cursor) wd wom) anchor

/-- A cursor month qualifies when its occurrence is not before the
anchor and strictly after now (the two accept conditions of the scan
loop body). -/
def monthQual (anchor : Int) (wd wom : ℚ) (now cursor : Int) : Prop :=
  anchor ≤ monthOcc anchor wd wom cursor ∧ now < monthOcc anchor wd wom cursor

/-- Iterated month stepping: the cursor after k passes of the scan
loop, starting from an arbitrary cursor. -/
def iterMonths (c : Int) : Nat → Int
  | 0 => c
  | Nat.succ k => addMonths (iterMonths c k) 1

/-- The cursor examined in iteration k of the monthly resolver for a
given reference instant. -/
def cursorIter (now : Int) (k : Nat) : Int := iterMonths (monthlyCursorStart now) k

/-- Closed form of the weekly resolver on validated integer
parameters: the base if it is still ahead of now, otherwise the
block-jump candidate or one further interval step. -/
def weeklyResult (anchor iv wd now : Int) : Int :=
  let base := weeklyBase anchor (wd : ℚ)
  if now < base then base
  else
    let c := base + weeksBetween base now / iv * iv * weekMs
    if now < c then c else c + iv * weekMs

/-- The validation predicate of the weekly resolver (source line 69):
Number(interval ?? 1) and Number(weekday) are finite, the interval is
at least 1 and the weekday lies in 0..6.  Integrality is not tested. -/
def weeklyParamsOK (interval weekday : Option JSNum) : Bool :=
  match jsNumberOr interval 1, jsNumber weekday with
  | JSNum.fin intv, JSNum.fin wd => decide (1 ≤ intv) && decide (0 ≤ wd) && decide (wd ≤ 6)
  | _, _ => false

/-- The validation predicate of the monthly resolver (source line
103): Number(weekday) and Number(weekOfMonth) are finite, the weekday
lies in 0..6 and the week-of-month in 1..5.  Integrality is not
tested. -/
def monthlyParamsOK (weekday weekOfMonth : Option JSNum) : Bool :=
  match jsNumber weekday, jsNumber weekOfMonth with
  | JSNum.fin wd, JSNum.fin wom =>
      decide (0 ≤ wd) && decide (wd ≤ 6) && decide (1 ≤ wom) && decide (wom ≤ 5)
  | _, _ => false

/-- The month index of the civil month containing an instant, counted
linearly (12 per year) so that consecutive months differ by one. -/
def monthKey (t : Int) : Int := 12 * getFullYear t + getMonth t

/-- Qualification of a cursor month is decidable, being a conjunction
of integer comparisons. -/
instance monthQualDecidable (a : Int) (wd wom : ℚ) (now cursor : Int) :
    Decidable (monthQual a wd wom now cursor) :=
  inferInstanceAs (Decidable (a ≤ monthOcc a wd wom cursor ∧ now < monthOcc a wd wom cursor))

/-- Stepping a civil (year, month) pair forward k months, with the
same month arithmetic setMonth uses. -/
def monthShift (y m : Int) : Nat → Int × Int
  | 0 => (y, m)
  | Nat.succ k =>
    ((monthShift y m k).1 + (monthShift y m k).2 / 12, (monthShift y m k).2 % 12 + 1)

/-! Basic facts about the numeric primitives. -/

theorem dayMs_pos : (0 : Int) < dayMs := by unfold dayMs; omega

theorem ratFloor_eq_floor (q : ℚ) : ratFloor q = ⌊q⌋ := by
  show q.num / (q.den : Int) = ⌊q⌋
  exact Rat.floor_def.symm

theorem le_jsTrunc {n : Int} {q : ℚ} (h : (n : ℚ) ≤ q) : n ≤ jsTrunc q := by
  unfold jsTrunc
  split
  · rw [ratFloor_eq_floor]
    exact Int.le_floor.mpr h
  · rw [ratFloor_eq_floor, Int.floor_neg, neg_neg]
    have hc := Int.le_ceil q
    exact_mod_cast h.trans hc

theorem jsTrunc_le {n : Int} {q : ℚ} (h : q ≤ (n : ℚ)) : jsTrunc q ≤ n := by
  unfold jsTrunc
  split
  · rw [ratFloor_eq_floor]
    have hf := Int.floor_le q
    exact_mod_cast hf.trans h
  · rw [ratFloor_eq_floor, Int.floor_neg, neg_neg]
    exact Int.ceil_le.mpr h

theorem jsTrunc_intCast (n : Int) : jsTrunc ((n : ℚ)) = n :=
  le_antisymm (jsTrunc_le le_rfl) (le_jsTrunc le_rfl)

theorem jsMod_intCast {a : Int} (b : ℕ) (ha : 0 ≤ a) (hb : 0 < b) :
    jsMod (a : ℚ) (b : ℚ) = ((a % (b : Int) : Int) : ℚ) := by
  unfold jsMod
  have h1 : (0 : ℚ) ≤ (a : ℚ) / (b : ℚ) := by positivity
  have h2 : jsTrunc ((a : ℚ) / (b : ℚ)) = a / (b : Int) := by
    unfold jsTrunc
    rw [if_pos h1, ratFloor_eq_floor]
    exact_mod_cast Rat.floor_intCast_div_natCast a b
  rw [h2]
  have : a % (b : Int) = a - (b : Int) * (a / (b : Int)) := by
    rw [Int.emod_def]
  rw [this]
  push_cast
  ring

theorem ratFloor_intCast_div_intCast (a b : Int) (hb : 0 < b) :
    ratFloor ((a : ℚ) / (b : ℚ)) = a / b := by
  rw [ratFloor_eq_floor]
  have h1 : ((b.toNat : ℕ) : ℚ) = (b : ℚ) := by
    rw [← Int.cast_natCast]
    exact congrArg _ (Int.toNat_of_nonneg hb.le)
  have h2 : ((b.toNat : ℕ) : Int) = b := Int.toNat_of_nonneg hb.le
  rw [← h1, Rat.floor_intCast_div_natCast, h2]

/-! Facts about startOfDay, timeOfDay, getDay and the add functions. -/

theorem sod_add_tod (t : Int) : startOfDay t + timeOfDay t = t := by
  simp only [startOfDay, timeOfDay, dayMs]; omega

theorem tod_nonneg (t : Int) : 0 ≤ timeOfDay t := by
  simp only [timeOfDay, dayMs]; omega

theorem tod_lt (t : Int) : timeOfDay t < dayMs := by
  simp only [timeOfDay, dayMs]; omega

theorem sod_le (t : Int) : startOfDay t ≤ t := by
  simp only [startOfDay, dayMs]; omega

theorem sod_mono {s t : Int} (h : s ≤ t) : startOfDay s ≤ startOfDay t := by
  simp only [startOfDay, dayMs] at *; omega

theorem sod_add_mul (t k : Int) : startOfDay (t + k * dayMs) = startOfDay t + k * dayMs := by
  simp only [startOfDay, dayMs]; omega

theorem tod_add_mul (t k : Int) : timeOfDay (t + k * dayMs) = timeOfDay t := by
  simp only [timeOfDay, dayMs]; omega

theorem sod_mul_day (k : Int) : startOfDay (dayMs * k) = dayMs * k := by
  simp only [startOfDay, dayMs]; omega

theorem tod_mul_day (k : Int) : timeOfDay (dayMs * k) = 0 := by
  simp only [timeOfDay, dayMs]; omega

theorem sod_idem (t : Int) : startOfDay (startOfDay t) = startOfDay t := by
  simp only [startOfDay, dayMs]; omega

theorem sod_sub_sod_mod_day (s t : Int) : (startOfDay t - startOfDay s) % dayMs = 0 := by
  simp only [startOfDay, dayMs]; omega

theorem getDay_bounds (t : Int) : 0 ≤ getDay t ∧ getDay t < 7 := by
  simp only [getDay, dayMs]; omega

theorem setTime_tod (x a : Int) : timeOfDay (setTimeFromAnchor x a) = timeOfDay a := by
  simp only [setTimeFromAnchor, startOfDay, timeOfDay, dayMs]; omega

theorem addDays_intCast (t n : Int) : addDays t ((n : ℚ)) = t + n * dayMs := by
  unfold addDays
  have h : ((getDate t : Int) : ℚ) + (n : ℚ) = ((getDate t + n : Int) : ℚ) := by push_cast; ring
  rw [h, jsTrunc_intCast]
  ring

theorem addWeeks_intCast (t k : Int) : addWeeks t ((k : ℚ)) = t + k * weekMs := by
  unfold addWeeks
  have h : ((k : ℚ)) * 7 = (((7 * k : Int)) : ℚ) := by push_cast; ring
  rw [h, addDays_intCast]
  simp only [weekMs]
  ring

theorem addWeeks_lower {intv : ℚ} (h : 1 ≤ intv) (t : Int) :
    t + 7 * dayMs ≤ addWeeks t intv := by
  unfold addWeeks addDays
  have h2 : getDate t + 7 ≤ jsTrunc ((getDate t : ℚ) + intv * 7) := by
    apply le_jsTrunc
    push_cast
    linarith
  have hd : (0 : Int) < dayMs := dayMs_pos
  nlinarith

theorem addDays_ge {q : ℚ} (hq : 0 ≤ q) (t : Int) : t ≤ addDays t q := by
  unfold addDays
  have h2 : getDate t ≤ jsTrunc ((getDate t : ℚ) + q) := by
    apply le_jsTrunc
    linarith
  have hd : (0 : Int) < dayMs := dayMs_pos
  nlinarith

theorem addDays_tod (t : Int) (q : ℚ) : timeOfDay (addDays t q) = timeOfDay t := by
  unfold addDays
  simp only [timeOfDay, dayMs]
  omega

theorem addWeeks_tod (t : Int) (q : ℚ) : timeOfDay (addWeeks t q) = timeOfDay t := by
  unfold addWeeks
  exact addDays_tod t (q * 7)

theorem addDays_day_structure (t : Int) (q : ℚ) :
    ∃ j : Int, addDays t q = t + j * dayMs := ⟨_, rfl⟩

/-! Core arithmetic facts about the civil calendar conversions. -/

theorem hinnant_yoe (Y doy doe : Int) (hY0 : 0 ≤ Y) (hY1 : Y ≤ 399)
    (hd0 : 0 ≤ doy) (hd1 : doy ≤ 365)
    (hsp : doy = 365 → (Y % 4 = 3 ∧ Y % 100 ≠ 99) ∨ Y = 399)
    (hdoe : doe = 365 * Y + Y / 4 - Y / 100 + doy) :
    (doe - doe / 1460 + doe / 36524 - doe / 146096) / 365 = Y := by
  by_cases hsp2 : Y = 399 ∧ doy = 365
  · obtain ⟨h399, h365⟩ := hsp2
    subst h399
    subst h365
    omega
  · set q := Y / 4 with hqdef
    set e := Y / 100 with hedef
    set r := Y % 4 with hrdef
    set s := Y % 100 with hsdef
    have hqe : e ≤ q := by omega
    set B := q + 365 * r - e + doy with hBdef
    have hf : doe / 1460 = B / 1460 + q := by
      rw [show doe = B + q * 1460 by omega]
      exact Int.add_mul_ediv_right B q (by norm_num)
    have hB0 : 0 ≤ B := by omega
    have hB1 : B < 2 * 1460 := by omega
    have hsq : q = s / 4 + 25 * e := by
      rw [hqdef, show Y = s + 25 * e * 4 by omega]
      exact Int.add_mul_ediv_right s (25 * e) (by norm_num)
    set C := 365 * s + s / 4 + doy with hCdef
    have hgC : doe = C + e * 36524 := by omega
    have hCrange : 0 ≤ C ∧ C ≤ 36523 := by
      by_cases h365 : doy = 365
      · rcases hsp h365 with ⟨hr3, hs99⟩ | h399
        · omega
        · exact absurd ⟨h399, h365⟩ hsp2
      · omega
    have hg : doe / 36524 = e := by
      rw [hgC, Int.add_mul_ediv_right C e (by norm_num)]
      omega
    have hi : doe / 146096 = 0 := by omega
    have hN : doe - doe / 1460 + doe / 36524 - doe / 146096 = (doy - B / 1460) + Y * 365 := by
      omega
    have hx : 0 ≤ doy - B / 1460 ∧ doy - B / 1460 ≤ 364 := by
      by_cases h365 : doy = 365
      · rcases hsp h365 with ⟨hr3, hs99⟩ | h399
        · omega
        · exact absurd ⟨h399, h365⟩ hsp2
      · omega
    rw [hN, Int.add_mul_ediv_right _ Y (by norm_num : (365 : Int) ≠ 0)]
    omega

theorem exists_year (d : Int) (h0 : 0 ≤ d) (h1 : d ≤ 146095) :
    ∃ Y : Int, 0 ≤ Y ∧ Y ≤ 399 ∧ 365 * Y + Y / 4 - Y / 100 ≤ d ∧
      d < 365 * (Y + 1) + (Y + 1) / 4 - (Y + 1) / 100 := by
  have aux : ∀ n : Nat, ∀ dd : Int, 0 ≤ dd →
      dd < 365 * (n : Int) + (n : Int) / 4 - (n : Int) / 100 →
      ∃ Y : Int, 0 ≤ Y ∧ Y + 1 ≤ (n : Int) ∧ 365 * Y + Y / 4 - Y / 100 ≤ dd ∧
        dd < 365 * (Y + 1) + (Y + 1) / 4 - (Y + 1) / 100 := by
    intro n
    induction n with
    | zero =>
      intro dd h0d hlt
      simp only [Nat.cast_zero] at hlt
      omega
    | succ k ih =>
      intro dd h0d hlt
      push_cast at hlt
      by_cases hk : 365 * (k : Int) + (k : Int) / 4 - (k : Int) / 100 ≤ dd
      · exact ⟨(k : Int), by positivity, by omega, hk, by omega⟩
      · obtain ⟨Y, hY0, hY1, hY2, hY3⟩ := ih dd h0d (by omega)
        exact ⟨Y, hY0, by omega, hY2, hY3⟩
  obtain ⟨Y, hY0, hY1, hY2, hY3⟩ := aux 400 d h0 (by push_cast; omega)
  exact ⟨Y, hY0, by omega, hY2, hY3⟩

theorem yoe_spec (doe : Int) (h0 : 0 ≤ doe) (h1 : doe ≤ 146096) :
    0 ≤ (doe - doe / 1460 + doe / 36524 - doe / 146096) / 365 ∧
    (doe - doe / 1460 + doe / 36524 - doe / 146096) / 365 ≤ 399 ∧
    365 * ((doe - doe / 1460 + doe / 36524 - doe / 146096) / 365) +
      ((doe - doe / 1460 + doe / 36524 - doe / 146096) / 365) / 4 -
      ((doe - doe / 1460 + doe / 36524 - doe / 146096) / 365) / 100 ≤ doe ∧
    doe - (365 * ((doe - doe / 1460 + doe / 36524 - doe / 146096) / 365) +
      ((doe - doe / 1460 + doe / 36524 - doe / 146096) / 365) / 4 -
      ((doe - doe / 1460 + doe / 36524 - doe / 146096) / 365) / 100) ≤ 365 := by
  by_cases hmax : doe = 146096
  · subst hmax
    omega
  · obtain ⟨Y, hY0, hY1, hY2, hY3⟩ := exists_year doe h0 (by omega)
    have h1 : (Y + 1) / 4 ≤ Y / 4 + 1 := by omega
    have h2 : Y / 100 ≤ (Y + 1) / 100 := by omega
    have hd1 : doe - (365 * Y + Y / 4 - Y / 100) ≤ 365 := by omega
    have hyoe : (doe - doe / 1460 + doe / 36524 - doe / 146096) / 365 = Y := by
      apply hinnant_yoe Y (doe - (365 * Y + Y / 4 - Y / 100)) doe hY0 hY1 (by omega)
        hd1 ?_ (by omega)
      intro h365
      have h3 : Y / 4 - Y / 100 < (Y + 1) / 4 - (Y + 1) / 100 := by omega
      have h4 : (Y + 1) / 4 = Y / 4 + 1 := by omega
      have h5 : (Y + 1) / 100 = Y / 100 := by omega
      exact Or.inl ⟨by omega, by omega⟩
    rw [hyoe]
    exact ⟨hY0, hY1, by omega, by omega⟩

theorem civil_core (z era doe yoe doy mp d m : Int)
    (hera : era = (z + 719468) / 146097)
    (hdoe : doe = z + 719468 - era * 146097)
    (hyoe : yoe = (doe - doe / 1460 + doe / 36524 - doe / 146096) / 365)
    (hdoy : doy = doe - (365 * yoe + yoe / 4 - yoe / 100))
    (hmp : mp = (5 * doy + 2) / 153)
    (hd : d = doy - (153 * mp + 2) / 5 + 1)
    (hm : m = (if mp < 10 then mp + 3 else mp - 9)) :
    civilFromDays z = ⟨(if m ≤ 2 then yoe + era * 400 + 1 else yoe + era * 400), m, d⟩ ∧
    1 ≤ m ∧ m ≤ 12 ∧ 1 ≤ d ∧ d ≤ 31 ∧
    daysFromCivil (if m ≤ 2 then yoe + era * 400 + 1 else yoe + era * 400) m d = z := by
  obtain ⟨h1, h2, h3, h4⟩ := yoe_spec doe (by omega) (by omega)
  rw [← hyoe] at h1 h2 h3 h4
  have hdoyb : 0 ≤ doy ∧ doy ≤ 365 := by omega
  have hmpb : 0 ≤ mp ∧ mp ≤ 11 := by omega
  have hdb : 1 ≤ d ∧ d ≤ 31 := by omega
  have hmb : 1 ≤ m ∧ m ≤ 12 := by
    rcases lt_or_ge mp 10 with hc | hc
    · rw [if_pos hc] at hm; omega
    · rw [if_neg (not_lt.mpr hc)] at hm; omega
  refine ⟨?_, hmb.1, hmb.2, hdb.1, hdb.2, ?_⟩
  · simp only [civilFromDays]
    rw [← hera, ← hdoe, ← hyoe, ← hdoy, ← hmp, ← hd, ← hm]
  · have he1 : (yoe + era * 400) / 400 = yoe / 400 + era :=
      Int.add_mul_ediv_right yoe era (by norm_num)
    have he2 : yoe / 400 = 0 := by omega
    have hy400 : yoe + era * 400 - (yoe + era * 400) / 400 * 400 = yoe := by omega
    rcases lt_or_ge mp 10 with hc | hc
    · have hm3 : m = mp + 3 := by rw [hm, if_pos hc]
      have hmle : ¬(m ≤ 2) := by omega
      simp only [daysFromCivil, if_neg hmle]
      have ho : 153 * (m - 3) + 2 = 153 * mp + 2 := by omega
      rw [hy400, he1, he2, ho]
      omega
    · have hm9 : m = mp - 9 := by rw [hm, if_neg (not_lt.mpr hc)]
      have hmle : m ≤ 2 := by omega
      simp only [daysFromCivil, if_pos hmle]
      have hsimp : yoe + era * 400 + 1 - 1 = yoe + era * 400 := by ring
      rw [hsimp]
      have ho : 153 * (m + 9) + 2 = 153 * mp + 2 := by omega
      rw [hy400, he1, he2, ho]
      omega

theorem civilFromDays_spec (z : Int) :
    1 ≤ (civilFromDays z).month ∧ (civilFromDays z).month ≤ 12 ∧
    1 ≤ (civilFromDays z).day ∧ (civilFromDays z).day ≤ 31 ∧
    daysFromCivil (civilFromDays z).year (civilFromDays z).month (civilFromDays z).day = z := by
  obtain ⟨hciv, h1, h2, h3, h4, h5⟩ :=
    civil_core z _ _ _ _ _ _ _ rfl rfl rfl rfl rfl rfl rfl
  rw [hciv]
  exact ⟨h1, h2, h3, h4, h5⟩

theorem civil_monthFirst (y m : Int) (hm1 : 1 ≤ m) (hm2 : m ≤ 12) :
    civilFromDays (daysFromCivil y m 1) = ⟨y, m, 1⟩ := by
  obtain ⟨hciv, hb1, hb2, hb3, hb4, hfwd⟩ :=
    civil_core (daysFromCivil y m 1) _ _ _ _ _ _ _ rfl rfl rfl rfl rfl rfl rfl
  rw [hciv]
  rcases le_or_lt m 2 with hc | hc
  · have hz : daysFromCivil y m 1 =
        (y - 1) / 400 * 146097 +
          ((y - 1 - (y - 1) / 400 * 400) * 365 + (y - 1 - (y - 1) / 400 * 400) / 4 -
            (y - 1 - (y - 1) / 400 * 400) / 100 + ((153 * (m + 9) + 2) / 5 + 1 - 1)) -
          719468 := by
      simp only [daysFromCivil, if_pos hc]
    set ee := (y - 1) / 400 with hee
    set w := y - 1 - ee * 400 with hw
    set dy := (153 * (m + 9) + 2) / 5 with hdy
    have hz2 : daysFromCivil y m 1 = ee * 146097 + (w * 365 + w / 4 - w / 100 + dy) - 719468 := by
      rw [hz]; ring
    have hw0 : 0 ≤ w := by omega
    have hw1 : w ≤ 399 := by omega
    have hdyb : 306 ≤ dy ∧ dy ≤ 337 := by omega
    have herarec : (daysFromCivil y m 1 + 719468) / 146097 = ee := by
      rw [hz2, show ee * 146097 + (w * 365 + w / 4 - w / 100 + dy) - 719468 + 719468
            = w * 365 + w / 4 - w / 100 + dy + ee * 146097 from by ring,
        Int.add_mul_ediv_right _ _ (by norm_num : (146097 : Int) ≠ 0)]
      omega
    have hdoe2 : daysFromCivil y m 1 + 719468 -
        (daysFromCivil y m 1 + 719468) / 146097 * 146097 = w * 365 + w / 4 - w / 100 + dy := by
      rw [herarec, hz2]; ring
    have hrec := hinnant_yoe w dy
      (daysFromCivil y m 1 + 719468 - (daysFromCivil y m 1 + 719468) / 146097 * 146097)
      hw0 hw1 (by omega) (by omega)
      (by intro h; exact absurd h (by omega))
      (by rw [hdoe2]; ring)
    simp only [CivilDate.mk.injEq]
    rw [hrec, hdoe2, herarec]
    interval_cases m <;> (split_ifs <;> omega)
  · have hz : daysFromCivil y m 1 =
        y / 400 * 146097 +
          ((y - y / 400 * 400) * 365 + (y - y / 400 * 400) / 4 -
            (y - y / 400 * 400) / 100 + ((153 * (m - 3) + 2) / 5 + 1 - 1)) -
          719468 := by
      simp only [daysFromCivil, if_neg (not_le.mpr hc)]
    set ee := y / 400 with hee
    set w := y - ee * 400 with hw
    set dy := (153 * (m - 3) + 2) / 5 with hdy
    have hz2 : daysFromCivil y m 1 = ee * 146097 + (w * 365 + w / 4 - w / 100 + dy) - 719468 := by
      rw [hz]; ring
    have hw0 : 0 ≤ w := by omega
    have hw1 : w ≤ 399 := by omega
    have hdyb : 0 ≤ dy ∧ dy ≤ 275 := by omega
    have herarec : (daysFromCivil y m 1 + 719468) / 146097 = ee := by
      rw [hz2, show ee * 146097 + (w * 365 + w / 4 - w / 100 + dy) - 719468 + 719468
            = w * 365 + w / 4 - w / 100 + dy + ee * 146097 from by ring,
        Int.add_mul_ediv_right _ _ (by norm_num : (146097 : Int) ≠ 0)]
      omega
    have hdoe2 : daysFromCivil y m 1 + 719468 -
        (daysFromCivil y m 1 + 719468) / 146097 * 146097 = w * 365 + w / 4 - w / 100 + dy := by
      rw [herarec, hz2]; ring
    have hrec := hinnant_yoe w dy
      (daysFromCivil y m 1 + 719468 - (daysFromCivil y m 1 + 719468) / 146097 * 146097)
      hw0 hw1 (by omega) (by omega)
      (by intro h; exact absurd h (by omega))
      (by rw [hdoe2]; ring)
    simp only [CivilDate.mk.injEq]
    rw [hrec, hdoe2, herarec]
    interval_cases m <;> (split_ifs <;> omega)

theorem F_step (yy : Int) :
    365 ≤ yy / 400 * 146097 + ((yy - yy / 400 * 400) * 365 + (yy - yy / 400 * 400) / 4 -
        (yy - yy / 400 * 400) / 100) -
      ((yy - 1) / 400 * 146097 + ((yy - 1 - (yy - 1) / 400 * 400) * 365 +
        (yy - 1 - (yy - 1) / 400 * 400) / 4 - (yy - 1 - (yy - 1) / 400 * 400) / 100)) ∧
    yy / 400 * 146097 + ((yy - yy / 400 * 400) * 365 + (yy - yy / 400 * 400) / 4 -
        (yy - yy / 400 * 400) / 100) -
      ((yy - 1) / 400 * 146097 + ((yy - 1 - (yy - 1) / 400 * 400) * 365 +
        (yy - 1 - (yy - 1) / 400 * 400) / 4 - (yy - 1 - (yy - 1) / 400 * 400) / 100)) ≤ 366 := by
  have hcase : yy % 400 = 0 ∨ 1 ≤ yy % 400 := by omega
  rcases hcase with h0 | h0
  · have ha : (yy - 1) / 400 = yy / 400 - 1 := by omega
    have hb : yy - yy / 400 * 400 = 0 := by omega
    have hc : yy - 1 - (yy - 1) / 400 * 400 = 399 := by omega
    rw [hc, hb, ha]
    omega
  · have ha : (yy - 1) / 400 = yy / 400 := by omega
    have hw : yy - 1 - (yy - 1) / 400 * 400 = yy - yy / 400 * 400 - 1 := by omega
    rw [hw, ha]
    set w := yy - yy / 400 * 400 with hwdef
    have hw0 : 1 ≤ w ∧ w ≤ 399 := by omega
    have h4 : w / 4 - (w - 1) / 4 = 0 ∨ (w / 4 - (w - 1) / 4 = 1 ∧ w % 4 = 0) := by omega
    have h100 : w / 100 - (w - 1) / 100 = 0 ∨ (w / 100 - (w - 1) / 100 = 1 ∧ w % 100 = 0) := by
      omega
    rcases h4 with h4 | h4 <;> rcases h100 with h100 | h100 <;> omega

theorem monthLen_bounds (y m : Int) (h1 : 1 ≤ m) (h2 : m ≤ 12) :
    28 ≤ daysFromCivil (y + m / 12) (m % 12 + 1) 1 - daysFromCivil y m 1 ∧
    daysFromCivil (y + m / 12) (m % 12 + 1) 1 - daysFromCivil y m 1 ≤ 31 := by
  have hF := F_step y
  interval_cases m <;> (simp_all only [daysFromCivil]; norm_num; try omega)

theorem monthFirst_div (y m : Int) : monthFirst y m / dayMs = daysFromCivil y m 1 := by
  unfold monthFirst
  exact Int.mul_ediv_cancel_left _ (by norm_num [dayMs])

theorem getFullYear_monthFirst (y m : Int) (h1 : 1 ≤ m) (h2 : m ≤ 12) :
    getFullYear (monthFirst y m) = y := by
  unfold getFullYear
  rw [monthFirst_div, civil_monthFirst y m h1 h2]

theorem getMonth_monthFirst (y m : Int) (h1 : 1 ≤ m) (h2 : m ≤ 12) :
    getMonth (monthFirst y m) = m - 1 := by
  unfold getMonth
  rw [monthFirst_div, civil_monthFirst y m h1 h2]

theorem getDate_monthFirst (y m : Int) (h1 : 1 ≤ m) (h2 : m ≤ 12) :
    getDate (monthFirst y m) = 1 := by
  unfold getDate
  rw [monthFirst_div, civil_monthFirst y m h1 h2]

theorem tod_monthFirst (y m : Int) : timeOfDay (monthFirst y m) = 0 := tod_mul_day _

theorem addMonths_monthFirst (y m : Int) (h1 : 1 ≤ m) (h2 : m ≤ 12) :
    addMonths (monthFirst y m) 1 = monthFirst (y + m / 12) (m % 12 + 1) := by
  unfold addMonths
  rw [monthFirst_div, civil_monthFirst y m h1 h2, tod_monthFirst]
  simp only
  rw [show m - 1 + 1 = m from by ring,
    show daysFromCivil (y + m / 12) (m % 12 + 1) 1 + 1 - 1
      = daysFromCivil (y + m / 12) (m % 12 + 1) 1 from by ring,
    civil_monthFirst (y + m / 12) (m % 12 + 1) (by omega) (by omega)]
  unfold monthFirst
  simp

theorem monthShift_spec (y m : Int) (h1 : 1 ≤ m) (h2 : m ≤ 12) (k : Nat) :
    1 ≤ (monthShift y m k).2 ∧ (monthShift y m k).2 ≤ 12 ∧ y ≤ (monthShift y m k).1 ∧
    12 * (monthShift y m k).1 + (monthShift y m k).2 = 12 * y + m + (k : Int) := by
  induction k with
  | zero =>
    simp only [monthShift, Nat.cast_zero]
    omega
  | succ n ih =>
    simp only [monthShift]
    push_cast
    omega

theorem iterMonths_monthFirst (y m : Int) (h1 : 1 ≤ m) (h2 : m ≤ 12) (k : Nat) :
    iterMonths (monthFirst y m) k = monthFirst (monthShift y m k).1 (monthShift y m k).2 := by
  induction k with
  | zero => rfl
  | succ n ih =>
    have hb := monthShift_spec y m h1 h2 n
    simp only [iterMonths, monthShift, ih]
    exact addMonths_monthFirst _ _ hb.1 hb.2.1

theorem iterMonths_succ_left (c : Int) (k : Nat) :
    iterMonths c (k + 1) = iterMonths (addMonths c 1) k := by
  induction k with
  | zero => rfl
  | succ n ih =>
    show addMonths (iterMonths c (n + 1)) 1 = iterMonths (addMonths c 1) (n + 1)
    rw [ih]
    rfl

theorem jsMod_seven {a : Int} (ha : 0 ≤ a) : jsMod ((a : ℚ)) 7 = ((a % 7 : Int) : ℚ) := by
  have h := jsMod_intCast (a := a) 7 ha (by norm_num)
  simpa using h

theorem jsMakeDate_int (y mi n : Int) (hy : ¬(0 ≤ y ∧ y ≤ 99)) (hmi0 : 0 ≤ mi)
    (hmi11 : mi ≤ 11) :
    jsMakeDate y mi ((n : ℚ)) = dayMs * (daysFromCivil y (mi + 1) 1 + n - 1) := by
  simp only [jsMakeDate, jsYear]
  rw [if_neg hy, jsTrunc_intCast]
  rw [show mi / 12 = 0 from by omega, show mi % 12 = mi from by omega]
  ring_nf

theorem monthOcc_monthFirst (a wd wom y m : Int)
    (hwd0 : 0 ≤ wd) (hwd6 : wd ≤ 6) (h1 : 1 ≤ m) (h2 : m ≤ 12) (hy : 100 ≤ y) :
    monthOcc a ((wd : ℚ)) ((wom : ℚ)) (monthFirst y m) =
      dayMs * (daysFromCivil y m 1 +
        (wd - getDay (monthFirst y m) + 7) % 7 + (wom - 1) * 7) + timeOfDay a := by
  simp only [monthOcc, nthWeekdayOfMonth]
  rw [getFullYear_monthFirst y m h1 h2, getMonth_monthFirst y m h1 h2]
  have hy2 : ¬(0 ≤ y ∧ y ≤ 99) := by omega
  have hfirst : jsMakeDate y (m - 1) ((1 : ℚ)) = monthFirst y m := by
    have h := jsMakeDate_int y (m - 1) 1 hy2 (by omega) (by omega)
    rw [show ((1 : Int) : ℚ) = (1 : ℚ) from by norm_num] at h
    rw [h, show m - 1 + 1 = m from by ring]
    unfold monthFirst
    ring
  rw [hfirst]
  have hgd := getDay_bounds (monthFirst y m)
  have harg : (wd : ℚ) - (getDay (monthFirst y m) : ℚ) + 7
      = ((wd - getDay (monthFirst y m) + 7 : Int) : ℚ) := by push_cast; ring
  rw [harg, jsMod_seven (by omega)]
  have hday : 1 + (((wd - getDay (monthFirst y m) + 7) % 7 : Int) : ℚ) + ((wom : ℚ) - 1) * 7
      = ((1 + (wd - getDay (monthFirst y m) + 7) % 7 + (wom - 1) * 7 : Int) : ℚ) := by
    push_cast; ring
  rw [hday, jsMakeDate_int y (m - 1) _ hy2 (by omega) (by omega),
    show m - 1 + 1 = m from by ring]
  simp only [setTimeFromAnchor]
  rw [sod_mul_day]
  ring

/-! Properties of the weekly resolver. -/

theorem weeklyLoop_eq (intv : ℚ) (now : Int) (h : 1 ≤ intv) (c : Int) :
    weeklyLoop intv now h c = if c ≤ now then weeklyLoop intv now h (addWeeks c intv) else c := by
  rw [weeklyLoop, dite_eq_ite]

theorem weeklyLoop_gt (intv : ℚ) (now : Int) (h : 1 ≤ intv) (c : Int) :
    now < weeklyLoop intv now h c := by
  generalize hn : (now + 1 - c).toNat = n
  induction n using Nat.strong_induction_on generalizing c with
  | _ n ih =>
    rw [weeklyLoop_eq]
    split_ifs with hc
    · refine ih ((now + 1 - addWeeks c intv).toNat) ?_ _ rfl
      have hstep := addWeeks_lower h c
      have hd := dayMs_pos
      omega
    · omega

theorem weeklyLoop_ge (intv : ℚ) (now : Int) (h : 1 ≤ intv) (c : Int) :
    c ≤ weeklyLoop intv now h c := by
  generalize hn : (now + 1 - c).toNat = n
  induction n using Nat.strong_induction_on generalizing c with
  | _ n ih =>
    rw [weeklyLoop_eq]
    split_ifs with hc
    · have hrec := ih ((now + 1 - addWeeks c intv).toNat) ?_ (addWeeks c intv) rfl
      · have hstep := addWeeks_lower h c
        have hd := dayMs_pos
        omega
      · have hstep := addWeeks_lower h c
        have hd := dayMs_pos
        omega
    · omega

theorem weeklyLoop_tod (intv : ℚ) (now : Int) (h : 1 ≤ intv) (c : Int) :
    timeOfDay (weeklyLoop intv now h c) = timeOfDay c := by
  generalize hn : (now + 1 - c).toNat = n
  induction n using Nat.strong_induction_on generalizing c with
  | _ n ih =>
    rw [weeklyLoop_eq]
    split_ifs with hc
    · have hrec := ih ((now + 1 - addWeeks c intv).toNat) ?_ (addWeeks c intv) rfl
      · rw [hrec, addWeeks_tod]
      · have hstep := addWeeks_lower h c
        have hd := dayMs_pos
        omega
    · rfl

theorem weeklyLoop_closed (iv : Int) (now c : Int) (hh : 1 ≤ ((iv : Int) : ℚ))
    (hstop : now < c + iv * weekMs) :
    weeklyLoop ((iv : Int) : ℚ) now hh c = if c ≤ now then c + iv * weekMs else c := by
  split_ifs with hc
  · rw [weeklyLoop_eq, if_pos hc, addWeeks_intCast, weeklyLoop_eq, if_neg (by omega)]
  · rw [weeklyLoop_eq, if_neg hc]

theorem jsMod_nonneg_of_nonneg {a : ℚ} (h : 0 ≤ a) : 0 ≤ jsMod a 7 := by
  unfold jsMod jsTrunc
  rw [if_pos (by positivity : (0 : ℚ) ≤ a / 7), ratFloor_eq_floor]
  have h2 : ((⌊a / 7⌋ : Int) : ℚ) ≤ a / 7 := Int.floor_le _
  have h3 : a / 7 * 7 = a := by ring
  nlinarith

theorem weeklyBase_structure (anchor : Int) (wd : ℚ) (h0 : 0 ≤ wd) (_h6 : wd ≤ 6) :
    ∃ J : Int, 0 ≤ J ∧
      weeklyBase anchor wd = startOfDay anchor + J * dayMs + timeOfDay anchor := by
  simp only [weeklyBase]
  have hgd := getDay_bounds (startOfDay anchor)
  have hgdq : ((getDay (startOfDay anchor) : Int) : ℚ) ≤ 6 := by
    have h7 : getDay (startOfDay anchor) ≤ 6 := by omega
    exact_mod_cast h7
  have hdelta0 : 0 ≤ jsMod (wd - (getDay (startOfDay anchor) : ℚ) + 7) 7 :=
    jsMod_nonneg_of_nonneg (by linarith)
  have hJ : getDate (startOfDay anchor) ≤
      jsTrunc ((getDate (startOfDay anchor) : ℚ) + jsMod (wd - (getDay (startOfDay anchor) : ℚ) + 7) 7) :=
    le_jsTrunc (by linarith)
  refine ⟨jsTrunc ((getDate (startOfDay anchor) : ℚ) +
      jsMod (wd - (getDay (startOfDay anchor) : ℚ) + 7) 7) - getDate (startOfDay anchor),
    by omega, ?_⟩
  simp only [addDays, setTimeFromAnchor]
  rw [sod_add_mul, sod_idem]
  rw [if_neg ?_]
  have ha := sod_add_tod anchor
  have hnn : 0 ≤ (jsTrunc ((getDate (startOfDay anchor) : ℚ) +
      jsMod (wd - (getDay (startOfDay anchor) : ℚ) + 7) 7) - getDate (startOfDay anchor)) * dayMs :=
    mul_nonneg (by omega) dayMs_pos.le
  omega

theorem weeklyBase_ge (anchor : Int) (wd : ℚ) (h0 : 0 ≤ wd) (h6 : wd ≤ 6) :
    anchor ≤ weeklyBase anchor wd := by
  obtain ⟨J, hJ0, hJeq⟩ := weeklyBase_structure anchor wd h0 h6
  have ha := sod_add_tod anchor
  have hnn : 0 ≤ J * dayMs := mul_nonneg hJ0 dayMs_pos.le
  omega

theorem weeklyBase_tod (anchor : Int) (wd : ℚ) (h0 : 0 ≤ wd) (h6 : wd ≤ 6) :
    timeOfDay (weeklyBase anchor wd) = timeOfDay anchor := by
  obtain ⟨J, hJ0, hJeq⟩ := weeklyBase_structure anchor wd h0 h6
  have ha := sod_add_tod anchor
  rw [hJeq, show startOfDay anchor + J * dayMs + timeOfDay anchor = anchor + J * dayMs from by omega,
    tod_add_mul]

theorem weeklyBase_int (anchor wd : Int) (h0 : 0 ≤ wd) (h6 : wd ≤ 6) :
    weeklyBase anchor ((wd : Int) : ℚ) =
      startOfDay anchor + (wd - getDay (startOfDay anchor) + 7) % 7 * dayMs + timeOfDay anchor := by
  simp only [weeklyBase]
  have hgd := getDay_bounds (startOfDay anchor)
  have harg : ((wd : Int) : ℚ) - ((getDay (startOfDay anchor) : Int) : ℚ) + 7
      = ((wd - getDay (startOfDay anchor) + 7 : Int) : ℚ) := by push_cast; ring
  rw [harg, jsMod_seven (by omega), addDays_intCast]
  simp only [setTimeFromAnchor]
  rw [sod_add_mul, sod_idem]
  rw [if_neg ?_]
  have ha := sod_add_tod anchor
  have hj : 0 ≤ (wd - getDay (startOfDay anchor) + 7) % 7 := by omega
  have hnn : 0 ≤ (wd - getDay (startOfDay anchor) + 7) % 7 * dayMs :=
    mul_nonneg hj dayMs_pos.le
  omega

theorem weeklyBase_int_props (anchor wd : Int) (h0 : 0 ≤ wd) (h6 : wd ≤ 6) :
    anchor ≤ weeklyBase anchor ((wd : Int) : ℚ) ∧
    timeOfDay (weeklyBase anchor ((wd : Int) : ℚ)) = timeOfDay anchor ∧
    getDay (weeklyBase anchor ((wd : Int) : ℚ)) = wd := by
  rw [weeklyBase_int anchor wd h0 h6]
  have hgdval : getDay (startOfDay anchor) = (anchor / dayMs + 4) % 7 := by
    simp only [getDay, startOfDay, dayMs]
    omega
  refine ⟨?_, ?_, ?_⟩
  · have ha := sod_add_tod anchor
    have hj : 0 ≤ (wd - getDay (startOfDay anchor) + 7) % 7 := by omega
    have hnn : 0 ≤ (wd - getDay (startOfDay anchor) + 7) % 7 * dayMs :=
      mul_nonneg hj dayMs_pos.le
    omega
  · have ha := sod_add_tod anchor
    rw [show startOfDay anchor + (wd - getDay (startOfDay anchor) + 7) % 7 * dayMs +
          timeOfDay anchor = anchor + (wd - getDay (startOfDay anchor) + 7) % 7 * dayMs
        from by omega, tod_add_mul]
  · rw [hgdval]
    simp only [getDay, startOfDay, timeOfDay, dayMs]
    omega

theorem weeksBetween_nonneg {b now : Int} (h : b ≤ now) : 0 ≤ weeksBetween b now := by
  unfold weeksBetween
  have hs := sod_mono h
  have hw : (0 : Int) < weekMs := by simp only [weekMs, dayMs]; omega
  exact Int.ediv_nonneg (by omega) hw.le

theorem nextWeekly_sound (a : Int) (interval weekday : Option JSNum) (now t : Int)
    (h : nextWeeklyOccurrence (some a) interval weekday now = some t) :
    now < t ∧ a ≤ t ∧ timeOfDay t = timeOfDay a := by
  simp only [nextWeeklyOccurrence] at h
  rcases hiv : jsNumberOr interval 1 with _ | iv <;> rw [hiv] at h
  · exact Option.noConfusion h
  rcases hwd : jsNumber weekday with _ | wd <;> rw [hwd] at h
  · exact Option.noConfusion h
  dsimp only at h
  by_cases hv : 1 ≤ iv ∧ 0 ≤ wd ∧ wd ≤ 6
  · rw [dif_pos hv] at h
    obtain ⟨hv1, hv2, hv3⟩ := hv
    by_cases hb : now < weeklyBase a wd
    · rw [if_pos hb] at h
      injection h with h2
      subst h2
      exact ⟨hb, weeklyBase_ge a wd hv2 hv3, weeklyBase_tod a wd hv2 hv3⟩
    · rw [if_neg hb] at h
      injection h with h2
      subst h2
      have hwb : weeklyBase a wd ≤ now := not_lt.mp hb
      have hw0 : 0 ≤ weeksBetween (weeklyBase a wd) now := weeksBetween_nonneg hwb
      have hblocks : (0 : Int) ≤ ratFloor (((weeksBetween (weeklyBase a wd) now : Int) : ℚ) / iv) := by
        rw [ratFloor_eq_floor]
        apply Int.le_floor.mpr
        have hiv0 : (0 : ℚ) < iv := by linarith
        have hcw : (0 : ℚ) ≤ ((weeksBetween (weeklyBase a wd) now : Int) : ℚ) := by
          exact_mod_cast hw0
        positivity
      have hcand : weeklyBase a wd ≤ addWeeks (weeklyBase a wd)
          (((ratFloor (((weeksBetween (weeklyBase a wd) now : Int) : ℚ) / iv) : Int) : ℚ) * iv) := by
        apply addDays_ge
        have hb0 : (0 : ℚ) ≤ ((ratFloor (((weeksBetween (weeklyBase a wd) now : Int) : ℚ) / iv) : Int) : ℚ) := by
          exact_mod_cast hblocks
        nlinarith
      refine ⟨weeklyLoop_gt _ _ _ _, ?_, ?_⟩
      · have h1 : a ≤ weeklyBase a wd := weeklyBase_ge a wd hv2 hv3
        have h3 := weeklyLoop_ge iv now hv1 (addWeeks (weeklyBase a wd)
          (((ratFloor (((weeksBetween (weeklyBase a wd) now : Int) : ℚ) / iv) : Int) : ℚ) * iv))
        omega
      · rw [weeklyLoop_tod, addWeeks_tod, weeklyBase_tod a wd hv2 hv3]
  · rw [dif_neg hv] at h
    exact Option.noConfusion h

/-! Properties of the monthly resolver. -/

theorem monthlyScan_succ_qual {a : Int} {wd wom : ℚ} {now cursor : Int} (n : Nat)
    (hq : monthQual a wd wom now cursor) :
    monthlyScan a wd wom now (n + 1) cursor = some (monthOcc a wd wom cursor) := by
  obtain ⟨h1, h2⟩ := hq
  show (if monthOcc a wd wom cursor < a then monthlyScan a wd wom now n (addMonths cursor 1)
    else if now < monthOcc a wd wom cursor then some (monthOcc a wd wom cursor)
    else monthlyScan a wd wom now n (addMonths cursor 1)) = some (monthOcc a wd wom cursor)
  rw [if_neg (not_lt.mpr h1), if_pos h2]

theorem monthlyScan_succ_notqual {a : Int} {wd wom : ℚ} {now cursor : Int} (n : Nat)
    (hq : ¬ monthQual a wd wom now cursor) :
    monthlyScan a wd wom now (n + 1) cursor = monthlyScan a wd wom now n (addMonths cursor 1) := by
  show (if monthOcc a wd wom cursor < a then monthlyScan a wd wom now n (addMonths cursor 1)
    else if now < monthOcc a wd wom cursor then some (monthOcc a wd wom cursor)
    else monthlyScan a wd wom now n (addMonths cursor 1)) = _
  by_cases h1 : monthOcc a wd wom cursor < a
  · rw [if_pos h1]
  · rw [if_neg h1]
    have h2 : ¬ now < monthOcc a wd wom cursor := fun hlt => hq ⟨not_lt.mp h1, hlt⟩
    rw [if_neg h2]

theorem monthlyScan_some_iff (a : Int) (wd wom : ℚ) (now : Int) (fuel : Nat) (cursor t : Int) :
    monthlyScan a wd wom now fuel cursor = some t ↔
      ∃ k : Nat, k < fuel ∧ monthQual a wd wom now (iterMonths cursor k) ∧
        t = monthOcc a wd wom (iterMonths cursor k) ∧
        ∀ j : Nat, j < k → ¬ monthQual a wd wom now (iterMonths cursor j) := by
  induction fuel generalizing cursor with
  | zero =>
    simp only [monthlyScan]
    constructor
    · intro hcon
      exact Option.noConfusion hcon
    · rintro ⟨k, hk, _⟩
      exact absurd hk (Nat.not_lt_zero k)
  | succ n ih =>
    by_cases hq : monthQual a wd wom now cursor
    · rw [monthlyScan_succ_qual n hq]
      constructor
      · intro hsome
        injection hsome with hsome
        exact ⟨0, Nat.succ_pos n, hq, hsome.symm, fun j hj => absurd hj (Nat.not_lt_zero j)⟩
      · rintro ⟨k, hk, hkq, ht, hmin⟩
        rcases Nat.eq_zero_or_pos k with rfl | hkpos
        · rw [ht]
          rfl
        · exact absurd hq (hmin 0 hkpos)
    · rw [monthlyScan_succ_notqual n hq, ih]
      constructor
      · rintro ⟨k, hk, hkq, ht, hmin⟩
        refine ⟨k + 1, by omega, ?_, ?_, ?_⟩
        · rw [show iterMonths cursor (k + 1) = iterMonths (addMonths cursor 1) k from
            iterMonths_succ_left cursor k]
          exact hkq
        · rw [show iterMonths cursor (k + 1) = iterMonths (addMonths cursor 1) k from
            iterMonths_succ_left cursor k]
          exact ht
        · intro j hj
          rcases Nat.eq_zero_or_pos j with rfl | hjpos
          · exact hq
          · obtain ⟨j2, rfl⟩ : ∃ j2, j = j2 + 1 := ⟨j - 1, by omega⟩
            rw [iterMonths_succ_left cursor j2]
            exact hmin j2 (by omega)
      · rintro ⟨k, hk, hkq, ht, hmin⟩
        rcases Nat.eq_zero_or_pos k with rfl | hkpos
        · exact absurd hkq hq
        · obtain ⟨k2, rfl⟩ : ∃ k2, k = k2 + 1 := ⟨k - 1, by omega⟩
          refine ⟨k2, by omega, ?_, ?_, ?_⟩
          · rw [← iterMonths_succ_left cursor k2]
            exact hkq
          · rw [← iterMonths_succ_left cursor k2]
            exact ht
          · intro j hj
            rw [← iterMonths_succ_left cursor j]
            exact hmin (j + 1) (by omega)

theorem monthlyScan_none_iff (a : Int) (wd wom : ℚ) (now : Int) (fuel : Nat) (cursor : Int) :
    monthlyScan a wd wom now fuel cursor = none ↔
      ∀ k : Nat, k < fuel → ¬ monthQual a wd wom now (iterMonths cursor k) := by
  induction fuel generalizing cursor with
  | zero =>
    exact ⟨fun _ k hk => absurd hk (Nat.not_lt_zero k), fun _ => rfl⟩
  | succ n ih =>
    by_cases hq : monthQual a wd wom now cursor
    · rw [monthlyScan_succ_qual n hq]
      constructor
      · intro hcon
        exact Option.noConfusion hcon
      · intro hall
        exact absurd hq (hall 0 (Nat.succ_pos n))
    · rw [monthlyScan_succ_notqual n hq, ih]
      constructor
      · intro hall k hk
        rcases Nat.eq_zero_or_pos k with rfl | hkpos
        · exact hq
        · obtain ⟨k2, rfl⟩ : ∃ k2, k = k2 + 1 := ⟨k - 1, by omega⟩
          rw [iterMonths_succ_left cursor k2]
          exact hall k2 (by omega)
      · intro hall k hk
        rw [← iterMonths_succ_left cursor k]
        exact hall (k + 1) (by omega)

theorem monthOcc_tod (a : Int) (wd wom : ℚ) (cursor : Int) :
    timeOfDay (monthOcc a wd wom cursor) = timeOfDay a := setTime_tod _ _

theorem monthlyScan_sound (a : Int) (wd wom : ℚ) (now : Int) (fuel : Nat) (cursor t : Int)
    (h : monthlyScan a wd wom now fuel cursor = some t) :
    now < t ∧ a ≤ t ∧ timeOfDay t = timeOfDay a := by
  obtain ⟨k, _, ⟨hq1, hq2⟩, ht, _⟩ := (monthlyScan_some_iff a wd wom now fuel cursor t).mp h
  subst ht
  exact ⟨hq2, hq1, monthOcc_tod a wd wom _⟩

theorem nextMonthly_sound (a : Int) (weekday weekOfMonth : Option JSNum) (now t : Int)
    (h : nextMonthlyOccurrence (some a) weekday weekOfMonth now = some t) :
    now < t ∧ a ≤ t ∧ timeOfDay t = timeOfDay a := by
  simp only [nextMonthlyOccurrence] at h
  rcases hwd : jsNumber weekday with _ | wd <;> rw [hwd] at h
  · exact Option.noConfusion h
  rcases hwom : jsNumber weekOfMonth with _ | wom <;> rw [hwom] at h
  · exact Option.noConfusion h
  dsimp only at h
  by_cases hv : 0 ≤ wd ∧ wd ≤ 6 ∧ 1 ≤ wom ∧ wom ≤ 5
  · rw [if_pos hv] at h
    exact monthlyScan_sound a wd wom now 24 (monthlyCursorStart now) t h
  · rw [if_neg hv] at h
    exact Option.noConfusion h

theorem jsTrunc_one : jsTrunc (1 : ℚ) = 1 := by
  have h := jsTrunc_intCast 1
  simpa using h

theorem monthlyCursorStart_eq (now : Int) :
    monthlyCursorStart now =
      monthFirst (jsYear (getFullYear now)) ((civilFromDays (now / dayMs)).month) := by
  obtain ⟨hm1, hm2, _, _, _⟩ := civilFromDays_spec (now / dayMs)
  simp only [monthlyCursorStart, jsMakeDate, getMonth, monthFirst]
  rw [jsTrunc_one,
    show ((civilFromDays (now / dayMs)).month - 1) / 12 = 0 from by omega,
    show ((civilFromDays (now / dayMs)).month - 1) % 12 = (civilFromDays (now / dayMs)).month - 1
      from by omega,
    show jsYear (getFullYear now) + 0 = jsYear (getFullYear now) from by ring,
    show (civilFromDays (now / dayMs)).month - 1 + 1 = (civilFromDays (now / dayMs)).month
      from by ring]
  ring

theorem monthlyCursorStart_props (now : Int) (hy : ¬(0 ≤ getFullYear now ∧ getFullYear now ≤ 99)) :
    getFullYear (monthlyCursorStart now) = getFullYear now ∧
    getMonth (monthlyCursorStart now) = getMonth now ∧
    getDate (monthlyCursorStart now) = 1 ∧
    timeOfDay (monthlyCursorStart now) = 0 := by
  obtain ⟨hm1, hm2, _, _, _⟩ := civilFromDays_spec (now / dayMs)
  have hjs : jsYear (getFullYear now) = getFullYear now := by
    unfold jsYear
    rw [if_neg hy]
  rw [monthlyCursorStart_eq now, hjs]
  have hyr : getFullYear now = (civilFromDays (now / dayMs)).year := rfl
  rw [hyr]
  refine ⟨getFullYear_monthFirst _ _ hm1 hm2, ?_, getDate_monthFirst _ _ hm1 hm2,
    tod_monthFirst _ _⟩
  rw [getMonth_monthFirst _ _ hm1 hm2]
  rfl

theorem nextMonthly_int (anchor wd wom now : Int) (h0 : 0 ≤ wd) (h6 : wd ≤ 6)
    (h1 : 1 ≤ wom) (h5 : wom ≤ 5) :
    nextMonthlyOccurrence (some anchor) (some (JSNum.fin ((wd : Int) : ℚ)))
      (some (JSNum.fin ((wom : Int) : ℚ))) now =
      monthlyScan anchor ((wd : Int) : ℚ) ((wom : Int) : ℚ) now 24 (monthlyCursorStart now) := by
  simp only [nextMonthlyOccurrence, jsNumber]
  rw [if_pos ⟨by exact_mod_cast h0, by exact_mod_cast h6, by exact_mod_cast h1,
    by exact_mod_cast h5⟩]

theorem nextWeekly_int (anchor iv wd now : Int) (hiv : 1 ≤ iv) (h0 : 0 ≤ wd) (h6 : wd ≤ 6) :
    nextWeeklyOccurrence (some anchor) (some (JSNum.fin ((iv : Int) : ℚ)))
      (some (JSNum.fin ((wd : Int) : ℚ))) now = some (weeklyResult anchor iv wd now) := by
  have hivq : (1 : ℚ) ≤ ((iv : Int) : ℚ) := by exact_mod_cast hiv
  have h0q : (0 : ℚ) ≤ ((wd : Int) : ℚ) := by exact_mod_cast h0
  have h6q : ((wd : Int) : ℚ) ≤ 6 := by exact_mod_cast h6
  simp only [nextWeeklyOccurrence, jsNumberOr, jsNumber]
  rw [dif_pos ⟨hivq, h0q, h6q⟩]
  unfold weeklyResult
  by_cases hb : now < weeklyBase anchor ((wd : Int) : ℚ)
  · rw [if_pos hb, if_pos hb]
  · rw [if_neg hb, if_neg hb]
    have hwb : weeklyBase anchor ((wd : Int) : ℚ) ≤ now := not_lt.mp hb
    set b := weeklyBase anchor ((wd : Int) : ℚ) with hbdef
    have hblocks : ratFloor (((weeksBetween b now : Int) : ℚ) / ((iv : Int) : ℚ))
        = weeksBetween b now / iv := ratFloor_intCast_div_intCast _ iv (by omega)
    rw [hblocks]
    have hcand : addWeeks b (((weeksBetween b now / iv : Int) : ℚ) * ((iv : Int) : ℚ))
        = b + weeksBetween b now / iv * iv * weekMs := by
      rw [show ((weeksBetween b now / iv : Int) : ℚ) * ((iv : Int) : ℚ)
          = (((weeksBetween b now / iv * iv) : Int) : ℚ) from by push_cast; ring,
        addWeeks_intCast]
    have hdivfacts : weeksBetween b now / iv * iv ≤ weeksBetween b now ∧
        weeksBetween b now ≤ weeksBetween b now / iv * iv + iv - 1 := by
      have h1 := Int.ediv_add_emod (weeksBetween b now) iv
      have h2 := Int.emod_nonneg (weeksBetween b now) (by omega : iv ≠ 0)
      have h3 := Int.emod_lt_of_pos (weeksBetween b now) (by omega : 0 < iv)
      constructor <;> nlinarith [mul_comm (weeksBetween b now / iv) iv]
    have hW : weekMs * weeksBetween b now ≤ startOfDay now - startOfDay b ∧
        startOfDay now - startOfDay b ≤ weekMs * weeksBetween b now + weekMs - dayMs := by
      have heq : weeksBetween b now = (startOfDay now - startOfDay b) / weekMs := rfl
      have h1 := Int.ediv_add_emod (startOfDay now - startOfDay b) weekMs
      have h2 := Int.emod_nonneg (startOfDay now - startOfDay b)
        (by simp only [weekMs, dayMs]; omega : weekMs ≠ 0)
      have h3 := Int.emod_lt_of_pos (startOfDay now - startOfDay b)
        (by simp only [weekMs, dayMs]; omega : (0 : Int) < weekMs)
      have h4 : (startOfDay now - startOfDay b) % dayMs = 0 := sod_sub_sod_mod_day b now
      rw [heq]
      simp only [weekMs, dayMs] at *
      omega
    have hstop : now < b + weeksBetween b now / iv * iv * weekMs + iv * weekMs := by
      have ha1 := sod_add_tod now
      have ha2 := tod_lt now
      have ha3 := sod_add_tod b
      have ha4 := tod_nonneg b
      simp only [weekMs, dayMs] at *
      nlinarith [hdivfacts.2, hW.2]
    have hstop2 : now < addWeeks b (((weeksBetween b now / iv : Int) : ℚ) * ((iv : Int) : ℚ))
        + iv * weekMs := by
      rw [hcand]
      exact hstop
    rw [weeklyLoop_closed iv now _ hivq hstop2]
    refine congrArg some ?_
    dsimp only
    split_ifs <;> omega

theorem weeklyResult_def (anchor iv wd now : Int) :
    weeklyResult anchor iv wd now =
      if now < weeklyBase anchor ((wd : ℚ)) then weeklyBase anchor ((wd : ℚ))
      else if now < weeklyBase anchor ((wd : ℚ)) +
          weeksBetween (weeklyBase anchor ((wd : ℚ))) now / iv * iv * weekMs
        then weeklyBase anchor ((wd : ℚ)) +
          weeksBetween (weeklyBase anchor ((wd : ℚ))) now / iv * iv * weekMs
        else weeklyBase anchor ((wd : ℚ)) +
          weeksBetween (weeklyBase anchor ((wd : ℚ))) now / iv * iv * weekMs + iv * weekMs :=
  rfl

theorem weekly_window (b now : Int) :
    weekMs * weeksBetween b now ≤ startOfDay now - startOfDay b ∧
    startOfDay now - startOfDay b ≤ weekMs * weeksBetween b now + weekMs - dayMs := by
  have hwdef : weeksBetween b now = (startOfDay now - startOfDay b) / weekMs := rfl
  have e4 : (startOfDay now - startOfDay b) % dayMs = 0 := sod_sub_sod_mod_day b now
  simp only [weekMs, dayMs] at *
  omega

theorem ediv_mul_bounds (w iv : Int) (hiv : 1 ≤ iv) :
    w / iv * iv ≤ w ∧ w ≤ w / iv * iv + iv - 1 := by
  have h1 := Int.ediv_add_emod w iv
  have h2 := Int.emod_nonneg w (show iv ≠ 0 by omega)
  have h3 := Int.emod_lt_of_pos w (show (0 : Int) < iv by omega)
  have hcomm : iv * (w / iv) = w / iv * iv := mul_comm _ _
  constructor <;> linarith

theorem weekly_stop_low (b iv now : Int) (hiv : 1 ≤ iv) :
    b + weeksBetween b now / iv * iv * weekMs - iv * weekMs ≤ now ∧
    now < b + weeksBetween b now / iv * iv * weekMs + iv * weekMs := by
  have hdiv := ediv_mul_bounds (weeksBetween b now) iv hiv
  have hwin := weekly_window b now
  have hsb := sod_add_tod b
  have hsn := sod_add_tod now
  have htb0 := tod_nonneg b
  have htb1 := tod_lt b
  have htn0 := tod_nonneg now
  have htn1 := tod_lt now
  have hw7 : weekMs = 7 * dayMs := rfl
  have hdm : (0 : Int) < dayMs := dayMs_pos
  have hm1 : (weeksBetween b now + 1) * weekMs
      ≤ (weeksBetween b now / iv * iv + iv) * weekMs :=
    mul_le_mul_of_nonneg_right (by linarith [hdiv.2]) (by linarith)
  have hm2 : (weeksBetween b now / iv * iv - iv) * weekMs
      ≤ (weeksBetween b now - 1) * weekMs :=
    mul_le_mul_of_nonneg_right (by linarith [hdiv.1]) (by linarith)
  constructor <;> nlinarith [hwin.1, hwin.2, hm1, hm2]

theorem weeklyResult_spec (anchor iv wd now : Int) (hiv : 1 ≤ iv) :
    (∃ k : Int, 0 ≤ k ∧
      weeklyResult anchor iv wd now = weeklyBase anchor ((wd : ℚ)) + k * (iv * weekMs)) ∧
    now < weeklyResult anchor iv wd now ∧
    ∀ k : Int, 0 ≤ k → now < weeklyBase anchor ((wd : ℚ)) + k * (iv * weekMs) →
      weeklyResult anchor iv wd now ≤ weeklyBase anchor ((wd : ℚ)) + k * (iv * weekMs) := by
  have hw7 : weekMs = 7 * dayMs := rfl
  have hdm : (0 : Int) < dayMs := dayMs_pos
  have hstep : (0 : Int) < iv * weekMs := mul_pos (by omega) (by omega)
  rw [weeklyResult_def]
  by_cases hb2 : now < weeklyBase anchor ((wd : ℚ))
  · simp only [if_pos hb2]
    refine ⟨⟨0, le_refl 0, by ring⟩, hb2, ?_⟩
    intro k hk _
    have h2 : 0 ≤ k * (iv * weekMs) := mul_nonneg hk hstep.le
    linarith
  · simp only [if_neg hb2]
    have hwb : weeklyBase anchor ((wd : ℚ)) ≤ now := not_lt.mp hb2
    have hsl := weekly_stop_low (weeklyBase anchor ((wd : ℚ))) iv now hiv
    have hK0 : 0 ≤ weeksBetween (weeklyBase anchor ((wd : ℚ))) now / iv :=
      Int.ediv_nonneg (weeksBetween_nonneg hwb) (by omega)
    by_cases hc : now < weeklyBase anchor ((wd : ℚ)) +
        weeksBetween (weeklyBase anchor ((wd : ℚ))) now / iv * iv * weekMs
    · simp only [if_pos hc]
      refine ⟨⟨weeksBetween (weeklyBase anchor ((wd : ℚ))) now / iv, hK0, by ring⟩, hc, ?_⟩
      intro k hk hgt
      by_cases hkK : k < weeksBetween (weeklyBase anchor ((wd : ℚ))) now / iv
      · exfalso
        have hm : k * (iv * weekMs)
            ≤ (weeksBetween (weeklyBase anchor ((wd : ℚ))) now / iv - 1) * (iv * weekMs) :=
          mul_le_mul_of_nonneg_right (by omega) hstep.le
        nlinarith [hsl.1]
      · push_neg at hkK
        have hm : weeksBetween (weeklyBase anchor ((wd : ℚ))) now / iv * (iv * weekMs)
            ≤ k * (iv * weekMs) :=
          mul_le_mul_of_nonneg_right hkK hstep.le
        nlinarith
    · simp only [if_neg hc]
      push_neg at hc
      refine ⟨⟨weeksBetween (weeklyBase anchor ((wd : ℚ))) now / iv + 1, by omega, by ring⟩,
        by nlinarith [hsl.2], ?_⟩
      intro k hk hgt
      by_cases hkK : k < weeksBetween (weeklyBase anchor ((wd : ℚ))) now / iv + 1
      · exfalso
        have hm : k * (iv * weekMs)
            ≤ weeksBetween (weeklyBase anchor ((wd : ℚ))) now / iv * (iv * weekMs) :=
          mul_le_mul_of_nonneg_right (by omega) hstep.le
        nlinarith
      · push_neg at hkK
        have hm : (weeksBetween (weeklyBase anchor ((wd : ℚ))) now / iv + 1) * (iv * weekMs)
            ≤ k * (iv * weekMs) :=
          mul_le_mul_of_nonneg_right hkK hstep.le
        nlinarith

theorem weeklyResult_mono (anchor iv wd now1 now2 : Int) (hiv : 1 ≤ iv) (h12 : now1 < now2) :
    weeklyResult anchor iv wd now1 ≤ weeklyResult anchor iv wd now2 := by
  obtain ⟨⟨k2, hk2, hm2⟩, hg2, _⟩ := weeklyResult_spec anchor iv wd now2 hiv
  obtain ⟨_, _, hmin1⟩ := weeklyResult_spec anchor iv wd now1 hiv
  have h := hmin1 k2 hk2 (by rw [← hm2]; omega)
  omega

theorem monthOcc_step (a wd wom y m : Int) (hwd0 : 0 ≤ wd) (hwd6 : wd ≤ 6)
    (h1 : 1 ≤ m) (h2 : m ≤ 12) (hy : 100 ≤ y) :
    monthOcc a ((wd : ℚ)) ((wom : ℚ)) (monthFirst y m)
      < monthOcc a ((wd : ℚ)) ((wom : ℚ)) (monthFirst (y + m / 12) (m % 12 + 1)) := by
  have hy2 : 100 ≤ y + m / 12 := by omega
  rw [monthOcc_monthFirst a wd wom y m hwd0 hwd6 h1 h2 hy,
    monthOcc_monthFirst a wd wom (y + m / 12) (m % 12 + 1) hwd0 hwd6 (by omega) (by omega) hy2]
  have hlen := monthLen_bounds y m h1 h2
  have hgd1 := getDay_bounds (monthFirst y m)
  have hgd2 := getDay_bounds (monthFirst (y + m / 12) (m % 12 + 1))
  simp only [dayMs] at *
  omega

theorem monthOcc_iter_mono (a wd wom y m : Int) (hwd0 : 0 ≤ wd) (hwd6 : wd ≤ 6)
    (h1 : 1 ≤ m) (h2 : m ≤ 12) (hy : 100 ≤ y) (k j : Nat) (hkj : k ≤ j) :
    monthOcc a ((wd : ℚ)) ((wom : ℚ)) (iterMonths (monthFirst y m) k)
      ≤ monthOcc a ((wd : ℚ)) ((wom : ℚ)) (iterMonths (monthFirst y m) j) := by
  induction j with
  | zero =>
    have hk0 : k = 0 := Nat.le_zero.mp hkj
    subst hk0
    exact le_refl _
  | succ n ih =>
    rcases Nat.eq_or_lt_of_le hkj with heq | hlt
    · subst heq
      exact le_refl _
    · have hk_le : k ≤ n := by omega
      refine (ih hk_le).trans ?_
      obtain ⟨hs1, hs2, hsy, _⟩ := monthShift_spec y m h1 h2 n
      rw [iterMonths_monthFirst y m h1 h2 n, iterMonths_monthFirst y m h1 h2 (n + 1)]
      have hstep : monthShift y m (n + 1)
          = ((monthShift y m n).1 + (monthShift y m n).2 / 12,
             (monthShift y m n).2 % 12 + 1) := rfl
      rw [hstep]
      exact le_of_lt (monthOcc_step a wd wom (monthShift y m n).1 (monthShift y m n).2
        hwd0 hwd6 hs1 hs2 (by omega))

theorem monthlyScan_mono (a wd wom now1 now2 t1 t2 : Int)
    (hwd0 : 0 ≤ wd) (hwd6 : wd ≤ 6)
    (hy1 : 100 ≤ getFullYear now1) (hy2 : 100 ≤ getFullYear now2)
    (hkey : monthKey now1 ≤ monthKey now2) (h12 : now1 < now2)
    (hs1 : monthlyScan a ((wd : ℚ)) ((wom : ℚ)) now1 24 (monthlyCursorStart now1) = some t1)
    (hs2 : monthlyScan a ((wd : ℚ)) ((wom : ℚ)) now2 24 (monthlyCursorStart now2) = some t2) :
    t1 ≤ t2 := by
  obtain ⟨hm11, hm12, _, _, _⟩ := civilFromDays_spec (now1 / dayMs)
  obtain ⟨hm21, hm22, _, _, _⟩ := civilFromDays_spec (now2 / dayMs)
  have hc1 : monthlyCursorStart now1
      = monthFirst (getFullYear now1) ((civilFromDays (now1 / dayMs)).month) := by
    rw [monthlyCursorStart_eq]
    unfold jsYear
    rw [if_neg (by omega)]
  have hc2 : monthlyCursorStart now2
      = monthFirst (getFullYear now2) ((civilFromDays (now2 / dayMs)).month) := by
    rw [monthlyCursorStart_eq]
    unfold jsYear
    rw [if_neg (by omega)]
  have hmk1 : monthKey now1
      = 12 * getFullYear now1 + ((civilFromDays (now1 / dayMs)).month - 1) := rfl
  have hmk2 : monthKey now2
      = 12 * getFullYear now2 + ((civilFromDays (now2 / dayMs)).month - 1) := rfl
  obtain ⟨k1, hk1, hq1, ht1, hmin1⟩ :=
    (monthlyScan_some_iff a ((wd : ℚ)) ((wom : ℚ)) now1 24 (monthlyCursorStart now1) t1).mp hs1
  obtain ⟨k2, hk2, hq2, ht2, _⟩ :=
    (monthlyScan_some_iff a ((wd : ℚ)) ((wom : ℚ)) now2 24 (monthlyCursorStart now2) t2).mp hs2
  obtain ⟨d, hd⟩ : ∃ d : Nat, (d : Int)
      = 12 * getFullYear now2 + (civilFromDays (now2 / dayMs)).month
        - (12 * getFullYear now1 + (civilFromDays (now1 / dayMs)).month) :=
    ⟨(12 * getFullYear now2 + (civilFromDays (now2 / dayMs)).month
        - (12 * getFullYear now1 + (civilFromDays (now1 / dayMs)).month)).toNat,
      Int.toNat_of_nonneg (by omega)⟩
  have hsame : iterMonths (monthlyCursorStart now1) (k2 + d)
      = iterMonths (monthlyCursorStart now2) k2 := by
    rw [hc1, hc2, iterMonths_monthFirst _ _ hm11 hm12, iterMonths_monthFirst _ _ hm21 hm22]
    obtain ⟨p11, p12, _, p14⟩ :=
      monthShift_spec (getFullYear now1) ((civilFromDays (now1 / dayMs)).month) hm11 hm12 (k2 + d)
    obtain ⟨p21, p22, _, p24⟩ :=
      monthShift_spec (getFullYear now2) ((civilFromDays (now2 / dayMs)).month) hm21 hm22 k2
    have hcast : ((k2 + d : Nat) : Int) = (k2 : Int) + (d : Int) := by push_cast; ring
    rw [hcast] at p14
    have hY : (monthShift (getFullYear now1) ((civilFromDays (now1 / dayMs)).month) (k2 + d)).1
        = (monthShift (getFullYear now2) ((civilFromDays (now2 / dayMs)).month) k2).1 := by
      omega
    have hM : (monthShift (getFullYear now1) ((civilFromDays (now1 / dayMs)).month) (k2 + d)).2
        = (monthShift (getFullYear now2) ((civilFromDays (now2 / dayMs)).month) k2).2 := by
      omega
    rw [hY, hM]
  have hqj : monthQual a ((wd : ℚ)) ((wom : ℚ)) now1
      (iterMonths (monthlyCursorStart now1) (k2 + d)) := by
    rw [hsame]
    exact ⟨hq2.1, h12.trans hq2.2⟩
  have hk1j : k1 ≤ k2 + d := by
    by_contra hcon
    push_neg at hcon
    exact hmin1 (k2 + d) hcon hqj
  rw [ht1, ht2, ← hsame, hc1]
  exact monthOcc_iter_mono a wd wom (getFullYear now1) ((civilFromDays (now1 / dayMs)).month)
    hwd0 hwd6 hm11 hm12 hy1 k1 (k2 + d) hk1j

/-! The ten claims.  The Batteries rational primitives are restored to
their default transparency so that concrete runs of the resolvers can
be evaluated inside proofs. -/

attribute [local semireducible] Rat.add Rat.mul Rat.sub Rat.inv

/-- C1: whenever the weekly or the monthly resolver returns an
occurrence for a parseable anchor, that instant is strictly after now,
not before the anchor, and carries the time-of-day of the anchor. -/
theorem c1_resolved_after_now_and_anchor (a now t : Int)
    (interval weekday weekOfMonth : Option JSNum) :
    (nextWeeklyOccurrence (some a) interval weekday now = some t →
      now < t ∧ a ≤ t ∧ timeOfDay t = timeOfDay a) ∧
    (nextMonthlyOccurrence (some a) weekday weekOfMonth now = some t →
      now < t ∧ a ≤ t ∧ timeOfDay t = timeOfDay a) :=
  ⟨nextWeekly_sound a interval weekday now t, nextMonthly_sound a weekday weekOfMonth now t⟩

/-- C1 witness: the weekly resolver, run at anchor Monday 2024-01-01
09:00 with now equal to the anchor, yields Monday 2024-01-08 09:00,
which is after now, not before the anchor, and at 09:00. -/
theorem c1_resolved_after_now_and_anchor_witness :
    (19723 * dayMs + 32400000 : Int) < 19730 * dayMs + 32400000 ∧
    (19723 * dayMs + 32400000 : Int) ≤ 19730 * dayMs + 32400000 ∧
    timeOfDay (19730 * dayMs + 32400000) = timeOfDay (19723 * dayMs + 32400000) := by
  have h : nextWeeklyOccurrence (some (19723 * dayMs + 32400000)) (some (JSNum.fin 1))
      (some (JSNum.fin 1)) (19723 * dayMs + 32400000) = some (19730 * dayMs + 32400000) := by
    have h2 := nextWeekly_int (19723 * dayMs + 32400000) 1 1 (19723 * dayMs + 32400000)
      le_rfl (by omega) (by omega)
    have hc : JSNum.fin (((1 : Int)) : ℚ) = JSNum.fin 1 := by norm_num
    rw [hc] at h2
    rw [h2]
    decide
  exact (c1_resolved_after_now_and_anchor (19723 * dayMs + 32400000)
    (19723 * dayMs + 32400000) (19730 * dayMs + 32400000)
    (some (JSNum.fin 1)) (some (JSNum.fin 1)) (some (JSNum.fin 1))).1 h

/-- C2: the resolvers reject exactly the descriptors whose coerced
parameters are non-finite or out of range: the weekly resolver returns
none precisely when its validation fails, and a failed monthly
validation also yields none.  Integrality is not part of either check,
so non-integer in-range parameters are not rejected (see the
counterexample). -/
theorem c2_validation_checks_range_not_integrality (a now : Int)
    (interval weekday weekOfMonth : Option JSNum) :
    (nextWeeklyOccurrence (some a) interval weekday now = none ↔
      weeklyParamsOK interval weekday = false) ∧
    (monthlyParamsOK weekday weekOfMonth = false →
      nextMonthlyOccurrence (some a) weekday weekOfMonth now = none) := by
  constructor
  · simp only [nextWeeklyOccurrence, weeklyParamsOK]
    rcases jsNumberOr interval 1 with _ | iv
    · simp
    rcases jsNumber weekday with _ | wd
    · simp
    dsimp only
    by_cases hv : 1 ≤ iv ∧ 0 ≤ wd ∧ wd ≤ 6
    · rw [dif_pos hv]
      refine ⟨fun h => ?_, fun h => absurd h (by simp [hv.1, hv.2.1, hv.2.2])⟩
      exfalso
      by_cases hb : now < weeklyBase a wd
      · rw [if_pos hb] at h
        exact Option.noConfusion h
      · rw [if_neg hb] at h
        exact Option.noConfusion h
    · rw [dif_neg hv]
      refine ⟨fun _ => ?_, fun _ => rfl⟩
      have hor : ¬(1 ≤ iv) ∨ ¬(0 ≤ wd) ∨ ¬(wd ≤ 6) := by tauto
      rcases hor with h | h | h <;> simp [h]
  · intro hbad
    simp only [monthlyParamsOK] at hbad
    simp only [nextMonthlyOccurrence]
    rcases hwd : jsNumber weekday with _ | wd
    · rfl
    rw [hwd] at hbad
    rcases hwom : jsNumber weekOfMonth with _ | wom
    · rfl
    rw [hwom] at hbad
    dsimp only at hbad ⊢
    rw [if_neg ?_]
    intro hv
    simp [hv.1, hv.2.1, hv.2.2.1, hv.2.2.2] at hbad

/-- C2 witness: an out-of-range weekday (7) makes the monthly resolver
return none. -/
theorem c2_validation_checks_range_not_integrality_witness :
    nextMonthlyOccurrence (some 0) (some (JSNum.fin 7)) (some (JSNum.fin 1)) 0 = none :=
  (c2_validation_checks_range_not_integrality 0 0 (some (JSNum.fin 1))
    (some (JSNum.fin 7)) (some (JSNum.fin 1))).2 (by decide)

/-- C2 counterexample: a non-integer weekday (5/2) together with a
non-integer week-of-month (9/2) passes validation and the monthly
resolver computes an occurrence (2024-01-27 09:00) instead of
returning none, refuting the claim that non-integer parameters are
treated as unresolvable. -/
theorem c2_counterexample :
    nextMonthlyOccurrence (some (19723 * dayMs + 32400000)) (some (JSNum.fin (5 / 2)))
      (some (JSNum.fin (9 / 2))) (19723 * dayMs + 28800000)
      = some (19749 * dayMs + 32400000) := by
  decide

/-- C3: a weekly occurrence computed for validated integer parameters
is strictly after now, keeps the anchor time-of-day, falls on the
target weekday, and the whole weeks elapsed from the first on-weekday
occurrence (the base) to the result are an exact non-negative multiple
of the interval. -/
theorem c3_weekly_alignment (anchor iv wd now t : Int) (hiv : 1 ≤ iv) (h0 : 0 ≤ wd)
    (h6 : wd ≤ 6)
    (h : nextWeeklyOccurrence (some anchor) (some (JSNum.fin ((iv : ℚ))))
      (some (JSNum.fin ((wd : ℚ)))) now = some t) :
    now < t ∧ timeOfDay t = timeOfDay anchor ∧ getDay t = wd ∧
    ∃ k : Int, 0 ≤ k ∧ weeksBetween (weeklyBase anchor ((wd : ℚ))) t = k * iv := by
  rw [nextWeekly_int anchor iv wd now hiv h0 h6] at h
  injection h with h
  subst h
  obtain ⟨⟨k, hk, hmem⟩, hgt, _⟩ := weeklyResult_spec anchor iv wd now hiv
  have hshape : weeklyBase anchor ((wd : ℚ)) + k * (iv * weekMs)
      = weeklyBase anchor ((wd : ℚ)) + k * iv * 7 * dayMs := by
    simp only [weekMs]
    ring
  refine ⟨hgt, ?_, ?_, k, hk, ?_⟩
  · rw [hmem, hshape, tod_add_mul]
    exact (weeklyBase_int_props anchor wd h0 h6).2.1
  · rw [hmem, hshape]
    have hb := (weeklyBase_int_props anchor wd h0 h6).2.2
    simp only [getDay] at hb ⊢
    have hdiv : (weeklyBase anchor ((wd : ℚ)) + k * iv * 7 * dayMs) / dayMs
        = weeklyBase anchor ((wd : ℚ)) / dayMs + k * iv * 7 :=
      Int.add_mul_ediv_right _ _ (by simp only [dayMs]; omega)
    rw [hdiv]
    omega
  · rw [hmem, hshape]
    show (startOfDay (weeklyBase anchor ((wd : ℚ)) + k * iv * 7 * dayMs)
        - startOfDay (weeklyBase anchor ((wd : ℚ)))) / weekMs = k * iv
    rw [sod_add_mul]
    have hcalc : startOfDay (weeklyBase anchor ((wd : ℚ))) + k * iv * 7 * dayMs
        - startOfDay (weeklyBase anchor ((wd : ℚ))) = k * iv * (7 * dayMs) := by ring
    rw [hcalc]
    show k * iv * (7 * dayMs) / weekMs = k * iv
    simp only [weekMs]
    exact Int.mul_ediv_cancel _ (by simp only [dayMs]; omega)

/-- C3 witness: anchor Monday 2024-01-01 09:00, interval 2, weekday 3
(Wednesday), now 2024-01-11 00:00: the occurrence 2024-01-17 09:00 is
after now, at 09:00, and on a Wednesday. -/
theorem c3_weekly_alignment_witness :
    (19733 * dayMs : Int) < 19739 * dayMs + 32400000 ∧
    timeOfDay (19739 * dayMs + 32400000) = timeOfDay (19723 * dayMs + 32400000) ∧
    getDay (19739 * dayMs + 32400000) = 3 := by
  have h2 := nextWeekly_int (19723 * dayMs + 32400000) 2 3 (19733 * dayMs)
    (by omega) (by omega) (by omega)
  have hval : weeklyResult (19723 * dayMs + 32400000) 2 3 (19733 * dayMs)
      = 19739 * dayMs + 32400000 := by decide
  rw [hval] at h2
  obtain ⟨ha, hb, hc, _⟩ := c3_weekly_alignment (19723 * dayMs + 32400000) 2 3 (19733 * dayMs)
    (19739 * dayMs + 32400000) (by omega) (by omega) (by omega) h2
  exact ⟨ha, hb, hc⟩

/-- C4: with the reference instant equal to the anchor, any returned
occurrence is still strictly after it, for both resolvers; and in the
concrete boundary example (anchor Monday 2024-01-01 09:00, interval 1,
weekday Monday, now equal to the anchor) the weekly resolver returns
Monday 2024-01-08 09:00, one week later. -/
theorem c4_anchor_equal_now (a t : Int) (interval weekday weekOfMonth : Option JSNum) :
    ((nextWeeklyOccurrence (some a) interval weekday a = some t → a < t) ∧
      (nextMonthlyOccurrence (some a) weekday weekOfMonth a = some t → a < t)) ∧
    nextWeeklyOccurrence (some (19723 * dayMs + 32400000)) (some (JSNum.fin 1))
        (some (JSNum.fin 1)) (19723 * dayMs + 32400000)
      = some (19730 * dayMs + 32400000) := by
  refine ⟨⟨fun h => (nextWeekly_sound a interval weekday a t h).1,
    fun h => (nextMonthly_sound a weekday weekOfMonth a t h).1⟩, ?_⟩
  have h2 := nextWeekly_int (19723 * dayMs + 32400000) 1 1 (19723 * dayMs + 32400000)
    le_rfl (by omega) (by omega)
  have hc : JSNum.fin (((1 : Int)) : ℚ) = JSNum.fin 1 := by norm_num
  rw [hc] at h2
  rw [h2]
  decide

/-- C4 witness: the example run of the claim applied at its own
concrete data, showing the returned instant exceeds the anchor. -/
theorem c4_anchor_equal_now_witness :
    (19723 * dayMs + 32400000 : Int) < 19730 * dayMs + 32400000 := by
  have hpair := c4_anchor_equal_now (19723 * dayMs + 32400000) (19730 * dayMs + 32400000)
    (some (JSNum.fin 1)) (some (JSNum.fin 1)) (some (JSNum.fin 1))
  exact hpair.1.1 hpair.2

/-- C5: once the weekly resolver has jumped from the base by the
floor-division estimate of whole interval blocks, the candidate is
within one interval step of now, so the catch-up loop advances at most
once: it returns the candidate itself when the candidate is already
ahead of now, and the candidate plus one interval otherwise. -/
theorem c5_catchup_one_step (anchor iv wd now : Int) (hiv : 1 ≤ iv) (_h0 : 0 ≤ wd)
    (_h6 : wd ≤ 6) (hq : 1 ≤ ((iv : ℚ))) (_hwb : weeklyBase anchor ((wd : ℚ)) ≤ now) :
    now < weeklyBase anchor ((wd : ℚ)) +
        weeksBetween (weeklyBase anchor ((wd : ℚ))) now / iv * iv * weekMs + iv * weekMs ∧
    weeklyLoop ((iv : ℚ)) now hq
        (weeklyBase anchor ((wd : ℚ)) +
          weeksBetween (weeklyBase anchor ((wd : ℚ))) now / iv * iv * weekMs) =
      if weeklyBase anchor ((wd : ℚ)) +
            weeksBetween (weeklyBase anchor ((wd : ℚ))) now / iv * iv * weekMs ≤ now
        then weeklyBase anchor ((wd : ℚ)) +
            weeksBetween (weeklyBase anchor ((wd : ℚ))) now / iv * iv * weekMs + iv * weekMs
        else weeklyBase anchor ((wd : ℚ)) +
            weeksBetween (weeklyBase anchor ((wd : ℚ))) now / iv * iv * weekMs := by
  have hsl := weekly_stop_low (weeklyBase anchor ((wd : ℚ))) iv now hiv
  exact ⟨hsl.2, weeklyLoop_closed iv now _ hq hsl.2⟩

/-- C5 witness: anchor Monday 2024-01-01 09:00, interval 1, weekday 1,
now 2024-01-11 00:00: the jump candidate is within one interval step
of now and the loop advances exactly once. -/
theorem c5_catchup_one_step_witness :
    (19733 * dayMs : Int) < weeklyBase (19723 * dayMs + 32400000) (((1 : Int) : ℚ)) +
        weeksBetween (weeklyBase (19723 * dayMs + 32400000) (((1 : Int) : ℚ)))
          (19733 * dayMs) / 1 * 1 * weekMs + 1 * weekMs ∧
    weeklyLoop (((1 : Int) : ℚ)) (19733 * dayMs) (by norm_num)
        (weeklyBase (19723 * dayMs + 32400000) (((1 : Int) : ℚ)) +
          weeksBetween (weeklyBase (19723 * dayMs + 32400000) (((1 : Int) : ℚ)))
            (19733 * dayMs) / 1 * 1 * weekMs) =
      if weeklyBase (19723 * dayMs + 32400000) (((1 : Int) : ℚ)) +
            weeksBetween (weeklyBase (19723 * dayMs + 32400000) (((1 : Int) : ℚ)))
              (19733 * dayMs) / 1 * 1 * weekMs ≤ 19733 * dayMs
        then weeklyBase (19723 * dayMs + 32400000) (((1 : Int) : ℚ)) +
            weeksBetween (weeklyBase (19723 * dayMs + 32400000) (((1 : Int) : ℚ)))
              (19733 * dayMs) / 1 * 1 * weekMs + 1 * weekMs
        else weeklyBase (19723 * dayMs + 32400000) (((1 : Int) : ℚ)) +
            weeksBetween (weeklyBase (19723 * dayMs + 32400000) (((1 : Int) : ℚ)))
              (19733 * dayMs) / 1 * 1 * weekMs :=
  c5_catchup_one_step (19723 * dayMs + 32400000) 1 1 (19733 * dayMs) le_rfl (by omega)
    (by omega) (by norm_num) (by decide)

/-- C6: the monthly resolver performs a bounded scan of at most 24
consecutive months: it returns none exactly when no scanned month
qualifies, and any returned occurrence is the occurrence of some
qualifying scanned month; moreover, when the year of now is outside
the two-digit range remapped by the Date constructor, the scan starts
at the first day of the month containing now. -/
theorem c6_bounded_month_scan (anchor wd wom now : Int) (h0 : 0 ≤ wd) (h6 : wd ≤ 6)
    (h1 : 1 ≤ wom) (h5 : wom ≤ 5) :
    (nextMonthlyOccurrence (some anchor) (some (JSNum.fin ((wd : ℚ))))
        (some (JSNum.fin ((wom : ℚ)))) now = none ↔
      ∀ k : Nat, k < 24 → ¬ monthQual anchor ((wd : ℚ)) ((wom : ℚ)) now (cursorIter now k)) ∧
    (∀ t : Int, nextMonthlyOccurrence (some anchor) (some (JSNum.fin ((wd : ℚ))))
        (some (JSNum.fin ((wom : ℚ)))) now = some t →
      ∃ k : Nat, k < 24 ∧ monthQual anchor ((wd : ℚ)) ((wom : ℚ)) now (cursorIter now k) ∧
        t = monthOcc anchor ((wd : ℚ)) ((wom : ℚ)) (cursorIter now k)) ∧
    (¬(0 ≤ getFullYear now ∧ getFullYear now ≤ 99) →
      getFullYear (monthlyCursorStart now) = getFullYear now ∧
      getMonth (monthlyCursorStart now) = getMonth now ∧
      getDate (monthlyCursorStart now) = 1) := by
  have hint := nextMonthly_int anchor wd wom now h0 h6 h1 h5
  refine ⟨?_, ?_, ?_⟩
  · rw [hint, monthlyScan_none_iff]
    exact Iff.rfl
  · intro t ht
    rw [hint] at ht
    obtain ⟨k, hk, hq, htv, _⟩ := (monthlyScan_some_iff anchor ((wd : ℚ)) ((wom : ℚ)) now 24
      (monthlyCursorStart now) t).mp ht
    exact ⟨k, hk, hq, htv⟩
  · intro hy
    obtain ⟨p1, p2, p3, _⟩ := monthlyCursorStart_props now hy
    exact ⟨p1, p2, p3⟩

/-- C6 witness: with the anchor about 800 days past now (June 2026
anchor, October 2024 reference), no scanned month qualifies and the
monthly resolver returns none. -/
theorem c6_bounded_month_scan_witness :
    nextMonthlyOccurrence (some (20800 * dayMs)) (some (JSNum.fin (((5 : Int) : ℚ))))
      (some (JSNum.fin (((2 : Int) : ℚ)))) (20000 * dayMs) = none :=
  (c6_bounded_month_scan (20800 * dayMs) 5 2 (20000 * dayMs) (by omega) (by omega)
    (by omega) (by omega)).1.mpr (by decide)

/-- C6 counterexample: with now on 0050-06-01, the Date constructor
remaps year 50 to 1950, so the scan runs in 1950 rather than in the 24
months after the month containing now: the returned occurrence
(1950-06-05 09:00) precedes now by far more than 100000 days, refuting
the claim that the scan starts at the month containing now.  The value
-617727600000 is the instant 1950-06-05 09:00. -/
theorem c6_counterexample :
    nextMonthlyOccurrence (some (daysFromCivil 1 1 1 * dayMs + 32400000))
        (some (JSNum.fin 1)) (some (JSNum.fin 1)) (daysFromCivil 50 6 1 * dayMs)
      = some (-617727600000) ∧
    daysFromCivil 50 6 1 * dayMs + 100000 * dayMs < -617727600000 := by
  exact ⟨by decide, by decide⟩

/-- C7: when week-of-month 5 is requested in a month whose last target
weekday falls before the 29th available slot, the computed date lands
at or after the first day of the following month, and the monthly scan
returns exactly this spilled instant (stamped with the anchor
time-of-day) whenever the cursor month qualifies: the spilled date is
used as computed, not filtered or clamped. -/
theorem c7_fifth_week_spill (y m wd : Int) (h1 : 1 ≤ m) (h2 : m ≤ 12) (h0 : 0 ≤ wd)
    (h6 : wd ≤ 6) (hy : 100 ≤ y)
    (hlack : daysFromCivil (y + m / 12) (m % 12 + 1) 1
      < daysFromCivil y m 1 + (wd - getDay (monthFirst y m) + 7) % 7 + 29) :
    monthFirst (y + m / 12) (m % 12 + 1)
      ≤ nthWeekdayOfMonth y (m - 1) ((wd : ℚ)) (((5 : Int) : ℚ)) ∧
    ∀ a now : Int, monthQual a ((wd : ℚ)) (((5 : Int) : ℚ)) now (monthFirst y m) →
      monthlyScan a ((wd : ℚ)) (((5 : Int) : ℚ)) now 24 (monthFirst y m)
        = some (setTimeFromAnchor (nthWeekdayOfMonth y (m - 1) ((wd : ℚ)) (((5 : Int) : ℚ))) a) := by
  have hocc := monthOcc_monthFirst 0 wd 5 y m h0 h6 h1 h2 hy
  have hu : monthOcc (0 : Int) ((wd : ℚ)) (((5 : Int) : ℚ)) (monthFirst y m)
      = setTimeFromAnchor (nthWeekdayOfMonth y (m - 1) ((wd : ℚ)) (((5 : Int) : ℚ))) 0 := by
    unfold monthOcc
    rw [getFullYear_monthFirst y m h1 h2, getMonth_monthFirst y m h1 h2]
  obtain ⟨r, hr⟩ : ∃ r : Int, nthWeekdayOfMonth y (m - 1) ((wd : ℚ)) (((5 : Int) : ℚ))
      = dayMs * r := ⟨_, rfl⟩
  have htod0 : timeOfDay (0 : Int) = 0 := by decide
  have hnth : nthWeekdayOfMonth y (m - 1) ((wd : ℚ)) (((5 : Int) : ℚ))
      = dayMs * (daysFromCivil y m 1 + (wd - getDay (monthFirst y m) + 7) % 7
          + ((5 : Int) - 1) * 7) := by
    have e1 : setTimeFromAnchor (dayMs * r) (0 : Int) = dayMs * r := by
      simp only [setTimeFromAnchor]
      rw [sod_mul_day, htod0]
      ring
    have e2 := hu.symm.trans hocc
    rw [hr, e1, htod0] at e2
    rw [hr]
    omega
  constructor
  · rw [hnth]
    unfold monthFirst at hlack ⊢
    simp only [dayMs] at hlack ⊢
    omega
  · intro a now hq
    have h24 : (24 : Nat) = 23 + 1 := rfl
    rw [h24, monthlyScan_succ_qual 23 hq]
    refine congrArg some ?_
    unfold monthOcc
    rw [getFullYear_monthFirst y m h1 h2, getMonth_monthFirst y m h1 h2]

/-- C7 witness: June 2024 has only four Mondays, so the fifth-Monday
date spills to 2024-07-01, at or past the first day of July, and the
scan returns exactly that spilled instant. -/
theorem c7_fifth_week_spill_witness :
    monthFirst (2024 + 6 / 12) (6 % 12 + 1)
      ≤ nthWeekdayOfMonth 2024 (6 - 1) (((1 : Int) : ℚ)) (((5 : Int) : ℚ)) ∧
    monthlyScan 0 (((1 : Int) : ℚ)) (((5 : Int) : ℚ)) 0 24 (monthFirst 2024 6)
      = some (setTimeFromAnchor
          (nthWeekdayOfMonth 2024 (6 - 1) (((1 : Int) : ℚ)) (((5 : Int) : ℚ))) 0) := by
  have h := c7_fifth_week_spill 2024 6 1 (by omega) (by omega) (by omega) (by omega)
    (by omega) (by decide)
  exact ⟨h.1, h.2 0 0 (by decide)⟩

/-- C8: the dispatcher returns none when the cadence is absent or not
an object, when the anchor is absent or unparseable, and when the type
discriminant is neither weekly nor monthly; otherwise it forwards to
the matching resolver with the parsed anchor. -/
theorem c8_dispatcher_soft_failure (ev : JSEvent) (now : Int) :
    (ev.cadence = JSCadenceVal.missing → nextOccurrenceForEvent ev now = none) ∧
    (ev.cadence = JSCadenceVal.nonObject → nextOccurrenceForEvent ev now = none) ∧
    (∀ c, ev.cadence = JSCadenceVal.obj c → parseDate ev.dateStart = none →
      nextOccurrenceForEvent ev now = none) ∧
    (∀ c, ev.cadence = JSCadenceVal.obj c → c.type ≠ some weeklyTag →
      c.type ≠ some monthlyTag → nextOccurrenceForEvent ev now = none) ∧
    (∀ c anchor, ev.cadence = JSCadenceVal.obj c → parseDate ev.dateStart = some anchor →
      c.type = some weeklyTag →
      nextOccurrenceForEvent ev now
        = nextWeeklyOccurrence (some anchor) c.interval c.weekday now) ∧
    (∀ c anchor, ev.cadence = JSCadenceVal.obj c → parseDate ev.dateStart = some anchor →
      c.type = some monthlyTag →
      nextOccurrenceForEvent ev now
        = nextMonthlyOccurrence (some anchor) c.weekday c.weekOfMonth now) := by
  refine ⟨?_, ?_, ?_, ?_, ?_, ?_⟩
  · intro h
    simp only [nextOccurrenceForEvent, h]
  · intro h
    simp only [nextOccurrenceForEvent, h]
  · intro c hc hp
    simp only [nextOccurrenceForEvent, hc, hp]
  · intro c hc hw hm
    simp only [nextOccurrenceForEvent, hc]
    rcases parseDate ev.dateStart with _ | anchor
    · rfl
    · dsimp only
      rw [if_neg hw, if_neg hm]
  · intro c anchor hc hp hw
    simp only [nextOccurrenceForEvent, hc, hp]
    rw [if_pos hw]
  · intro c anchor hc hp hm
    simp only [nextOccurrenceForEvent, hc, hp]
    rw [if_neg (by rw [hm]; decide), if_pos hm]

/-- C8 witness: an event without a cadence resolves to none. -/
theorem c8_dispatcher_soft_failure_witness :
    nextOccurrenceForEvent ⟨JSCadenceVal.missing, RawDate.absent⟩ 0 = none :=
  (c8_dispatcher_soft_failure ⟨JSCadenceVal.missing, RawDate.absent⟩ 0).1 rfl

/-- C9: the resolved occurrence is non-decreasing in the reference
instant: unconditionally for the weekly resolver on validated integer
parameters, and for the monthly resolver provided both reference
instants lie in years at least 100 and the month of the first does not
come after the month of the second.  Below year 100 monotonicity can
fail, because the Date constructor remaps years 0..99 to 1900..1999
and a scan may enter that range (see the counterexample). -/
theorem c9_monotone_in_now (anchor iv wd wom now1 now2 t1 t2 : Int) (hiv : 1 ≤ iv)
    (h0 : 0 ≤ wd) (h6 : wd ≤ 6) (h1 : 1 ≤ wom) (h5 : wom ≤ 5) (h12 : now1 < now2) :
    (nextWeeklyOccurrence (some anchor) (some (JSNum.fin ((iv : ℚ))))
        (some (JSNum.fin ((wd : ℚ)))) now1 = some t1 →
      nextWeeklyOccurrence (some anchor) (some (JSNum.fin ((iv : ℚ))))
        (some (JSNum.fin ((wd : ℚ)))) now2 = some t2 → t1 ≤ t2) ∧
    (100 ≤ getFullYear now1 → 100 ≤ getFullYear now2 → monthKey now1 ≤ monthKey now2 →
      nextMonthlyOccurrence (some anchor) (some (JSNum.fin ((wd : ℚ))))
        (some (JSNum.fin ((wom : ℚ)))) now1 = some t1 →
      nextMonthlyOccurrence (some anchor) (some (JSNum.fin ((wd : ℚ))))
        (some (JSNum.fin ((wom : ℚ)))) now2 = some t2 → t1 ≤ t2) := by
  constructor
  · intro ha hb
    rw [nextWeekly_int anchor iv wd now1 hiv h0 h6] at ha
    rw [nextWeekly_int anchor iv wd now2 hiv h0 h6] at hb
    injection ha with ha
    injection hb with hb
    subst ha
    subst hb
    exact weeklyResult_mono anchor iv wd now1 now2 hiv h12
  · intro hy1 hy2 hkey ha hb
    rw [nextMonthly_int anchor wd wom now1 h0 h6 h1 h5] at ha
    rw [nextMonthly_int anchor wd wom now2 h0 h6 h1 h5] at hb
    exact monthlyScan_mono anchor wd wom now1 now2 t1 t2 h0 h6 hy1 hy2 hkey h12 ha hb

/-- C9 witness: weekly monotonicity applied at anchor Monday
2024-01-01 09:00, interval 1, weekday 1, with reference instants
2024-01-01 09:00 and 2024-01-11 00:00: the respective results
2024-01-08 09:00 and 2024-01-15 09:00 are ordered. -/
theorem c9_monotone_in_now_witness :
    (19730 * dayMs + 32400000 : Int) ≤ 19737 * dayMs + 32400000 := by
  have ha := nextWeekly_int (19723 * dayMs + 32400000) 1 1 (19723 * dayMs + 32400000)
    le_rfl (by omega) (by omega)
  have hb := nextWeekly_int (19723 * dayMs + 32400000) 1 1 (19733 * dayMs)
    le_rfl (by omega) (by omega)
  have hva : weeklyResult (19723 * dayMs + 32400000) 1 1 (19723 * dayMs + 32400000)
      = 19730 * dayMs + 32400000 := by decide
  have hvb : weeklyResult (19723 * dayMs + 32400000) 1 1 (19733 * dayMs)
      = 19737 * dayMs + 32400000 := by decide
  rw [hva] at ha
  rw [hvb] at hb
  exact (c9_monotone_in_now (19723 * dayMs + 32400000) 1 1 1 (19723 * dayMs + 32400000)
    (19733 * dayMs) (19730 * dayMs + 32400000) (19737 * dayMs + 32400000) le_rfl (by omega)
    (by omega) (by omega) (by omega) (by decide)).1 ha hb

/-- C9 counterexample: with a fixed valid monthly descriptor and a
fixed anchor, moving the reference instant forward from 0099-12-15 to
0100-01-15 makes the result jump backwards: year 99 is remapped to
1999 by the Date constructor while year 100 is not, so the first
result (1999-12-06 09:00) is far larger than the second (0100-02-03
09:00), refuting unrestricted monotonicity. -/
theorem c9_counterexample :
    daysFromCivil 99 12 15 * dayMs < daysFromCivil 100 1 15 * dayMs ∧
    nextMonthlyOccurrence (some (daysFromCivil 1 1 1 * dayMs + 32400000))
        (some (JSNum.fin 1)) (some (JSNum.fin 1)) (daysFromCivil 99 12 15 * dayMs)
      = some 944470800000 ∧
    nextMonthlyOccurrence (some (daysFromCivil 1 1 1 * dayMs + 32400000))
        (some (JSNum.fin 1)) (some (JSNum.fin 1)) (daysFromCivil 100 1 15 * dayMs)
      = some (-59008748400000) ∧
    (-59008748400000 : Int) < 944470800000 :=
  ⟨by decide, by decide, by decide, by decide⟩

/-- C10: the weekly resolver is total on validated parameters: it
never returns none for a parseable anchor, however distant; the
monthly resolver is not: a fully valid descriptor whose anchor lies
beyond the 24-month scan window (about 800 days past the reference
instant here) makes it return none. -/
theorem c10_weekly_total_monthly_partial (anchor now : Int) (interval weekday : Option JSNum)
    (hok : weeklyParamsOK interval weekday = true) :
    nextWeeklyOccurrence (some anchor) interval weekday now ≠ none ∧
    nextMonthlyOccurrence (some (20800 * dayMs)) (some (JSNum.fin 0)) (some (JSNum.fin 1))
      (20000 * dayMs) = none := by
  constructor
  · simp only [nextWeeklyOccurrence, weeklyParamsOK] at hok ⊢
    rcases hiv : jsNumberOr interval 1 with _ | iv <;> rw [hiv] at hok
    · simp at hok
    rcases hwd : jsNumber weekday with _ | wd <;> rw [hwd] at hok
    · simp at hok
    dsimp only at hok ⊢
    simp only [Bool.and_eq_true, decide_eq_true_eq] at hok
    rw [dif_pos (show 1 ≤ iv ∧ 0 ≤ wd ∧ wd ≤ 6 from ⟨hok.1.1, hok.1.2, hok.2⟩)]
    by_cases hb : now < weeklyBase anchor wd
    · rw [if_pos hb]
      exact fun hcon => Option.noConfusion hcon
    · rw [if_neg hb]
      exact fun hcon => Option.noConfusion hcon
  · decide

/-- C10 witness: a trivial valid weekly descriptor resolves to a
non-none occurrence while the distant-anchor monthly descriptor
resolves to none. -/
theorem c10_weekly_total_monthly_partial_witness :
    nextWeeklyOccurrence (some 0) (some (JSNum.fin 1)) (some (JSNum.fin 1)) 0 ≠ none ∧
    nextMonthlyOccurrence (some (20800 * dayMs)) (some (JSNum.fin 0)) (some (JSNum.fin 1))
      (20000 * dayMs) = none :=
  c10_weekly_total_monthly_partial 0 0 (some (JSNum.fin 1)) (some (JSNum.fin 1)) (by decide)
